import Mathlib

/-!
The stream `sds::fstream`: a shallow embedding of `src/sds/sds_fstream.cpp`

The stream is embedded as a record of its four members plus a ghost log of the
OS primitives it has invoked.  The C stdio layer is an explicit parameter
(`OS H`, with `H` the state behind a `FILE *`), so every theorem that
quantifies over `os` holds for any behaviour of the operating system,
including failing calls.  A concrete, well-behaved stdio (`stdio`) is given
for the properties that speak about file contents and offsets.

Undefined behaviour (handing a null `FILE *` to a stdio primitive that needs a
stream) is the result `none`.  `fflush( NULL )` is defined by C (it flushes
every open output stream), so `flush` on a stream without a handle returns.
-/

namespace sds

/-! ## Constants -/

/-- Modelled from the spec: the `StatusBits` enumeration is declared in
`sds/sds_fstream.h`, which is not part of the sources; the spec describes the
register as three independent bits `bad`, `fail`, `eof`. -/
def badbit : Nat := 1

/-- Modelled from the spec: second bit of the `StatusBits` enumeration
(see `badbit`). -/
def failbit : Nat := 2

/-- Modelled from the spec: third bit of the `StatusBits` enumeration
(see `badbit`). -/
def eof : Nat := 4

/-- Width of `size_t` in bits (LP64). -/
def SIZE_BITS : Nat := 64

/-- The value of `std::numeric_limits<size_t>::max()`. -/
def SIZE_MAX : Nat := 2 ^ SIZE_BITS - 1

/-- The conversion `static_cast<size_t>( x )` of a signed integer. -/
def toSizeT (x : Int) : Nat := (x % (2 ^ SIZE_BITS : Int)).toNat

/-- The conversion `static_cast<ptrdiff_t>( n )` of a `size_t`. -/
def toPtrdiff (n : Nat) : Int :=
  if n % 2 ^ SIZE_BITS < 2 ^ (SIZE_BITS - 1) then ((n % 2 ^ SIZE_BITS : Nat) : Int)
  else ((n % 2 ^ SIZE_BITS : Nat) : Int) - (2 ^ SIZE_BITS : Int)

/-- The stdio anchors. -/
def SEEK_SET : Int := 0
def SEEK_CUR : Int := 1
def SEEK_END : Int := 2

/-! ## Enumerations -/

/-- The enumeration `fstream::FileOpenMode`; the spec calls the members
`ReadOnly`, `ReadOnlyFromEnd`, `WriteKeepExisting`, `WriteKeepExistingFromEnd`,
`WriteDiscardExisting`, `ReadWriteKeepExisting`, `ReadWriteKeepExistingFromEnd`
(in this order). -/
inductive FileOpenMode
  | Input
  | InputEnd
  | OutputKeep
  | OutputKeepEnd
  | OutputDiscard
  | InOutKeep
  | InOutEnd
  deriving DecidableEq, Repr

/-- The enumeration `fstream::Whence`. -/
inductive Whence
  | beg
  | cur
  | end_
  deriving DecidableEq, Repr

/-- The three preprocessor configurations of `fstream::fsync`. -/
inductive Platform
  | apple
  | posix
  | win32
  deriving DecidableEq, Repr

/-! ## The operating system -/

/-- One invocation of a stdio / descriptor primitive. -/
inductive OSCall
  | fopen (path modeStr : String)
  | fclose
  | ferror
  | feof
  | fread (sizeBytes : Nat)
  | fwrite (data : List Nat) (sizeBytes : Nat)
  | fseek (offset : Int) (whence : Int)
  | ftell
  | fflush
  | fileno
  | fcntl_fullfsync
  | fsync
  | fdatasync
  | commit
  | fflush_null
  deriving DecidableEq, Repr

/-- The stdio primitives the stream is written against.  `H` is the state
behind an open `FILE *`; bytes are natural numbers.  Primitives that may change
the stream return the new state next to their C return value. -/
structure OS (H : Type) where
  fopen : String → String → Option H
  fclose : H → Int
  ferror : H → Int
  feof : H → Int
  /-- The bytes transferred into the caller's buffer; their number is the
  return value of `fread( buf, 1, n, h )`. -/
  fread : H → Nat → List Nat × H
  /-- Return value of `fwrite( buf, 1, n, h )`. -/
  fwrite : H → List Nat → Nat → Nat × H
  fseek : H → Int → Int → Int × H
  ftell : H → Int
  fflush : H → Int × H
  /-- Return value of `fflush( NULL )`, which flushes every open output
  stream. -/
  fflush_null : Int
  fileno : H → Int
  fcntl_fullfsync : H → Int × H
  fsync : H → Int × H
  fdatasync : H → Int × H
  commit : H → Int × H

/-! ## The stream -/

/-- The members of `sds::fstream`, and the ghost field `calls`: the OS
primitives invoked so far, oldest first. -/
structure fstream (H : Type) where
  m_handle : Option H
  m_statusBits : Nat
  m_canRead : Bool
  m_canWrite : Bool
  calls : List OSCall

variable {H : Type}

/-- Ghost: record one OS invocation. -/
def fstream.log (s : fstream H) (c : OSCall) : fstream H :=
  { s with calls := s.calls ++ [c] }

/-- The statement `m_statusBits |= bits`. -/
def fstream.orBits (s : fstream H) (bits : Nat) : fstream H :=
  { s with m_statusBits := s.m_statusBits ||| bits }

/-- The default constructor `fstream::fstream()`. -/
def fstream.mk0 : fstream H :=
  { m_handle := none, m_statusBits := 0, m_canRead := false, m_canWrite := false, calls := [] }

/-- The function `fstream::close`. -/
def close (s : fstream H) : fstream H :=
  let s1 : fstream H :=
    match s.m_handle with
    | some _ => { s.log OSCall.fclose with m_handle := none }
    | none => s
  { s1 with m_statusBits := 0, m_canRead := false, m_canWrite := false }

/-- The function `fstream::is_open`. -/
def is_open (s : fstream H) : Bool := s.m_handle.isSome

/-- The function `fstream::good`: the returned flag and the stream afterwards. -/
def good (os : OS H) (s : fstream H) : Bool × fstream H :=
  match s.m_handle with
  | none => (false, s)
  | some h =>
    let s1 : fstream H :=
      if s.m_statusBits &&& (badbit ||| failbit) = 0 then
        if os.ferror h ≠ 0 then (s.log OSCall.ferror).orBits badbit
        else s.log OSCall.ferror
      else s
    (s1.m_statusBits == 0 || s1.m_statusBits == eof, s1)

/-- The function `fstream::is_eof`. -/
def is_eof (s : fstream H) : Bool := s.m_statusBits &&& eof != 0

/-- The function `fstream::read( char *outData, size_t sizeBytes )`.  The
result is the returned count, the contents of `outData` afterwards, and the
stream afterwards; `none` when a null handle reaches `fread`. -/
def read (os : OS H) (s : fstream H) (outData : List Nat) (sizeBytes : Nat) :
    Option ((Nat × List Nat) × fstream H) :=
  if s.m_canRead then
    match s.m_handle with
    | none => none
    | some h =>
      let r := os.fread h sizeBytes
      let retVal := r.1.length
      let out := r.1 ++ outData.drop retVal
      let s1 : fstream H := { s.log (OSCall.fread sizeBytes) with m_handle := some r.2 }
      if retVal ≠ sizeBytes then
        let s2 := if os.ferror r.2 ≠ 0 then (s1.log OSCall.ferror).orBits badbit
                  else s1.log OSCall.ferror
        let s3 := if os.feof r.2 ≠ 0 then (s2.log OSCall.feof).orBits eof
                  else s2.log OSCall.feof
        some ((retVal, out), s3)
      else
        some ((retVal, out), s1)
  else
    some ((SIZE_MAX, outData), s.orBits failbit)

/-- The function `fstream::write( const char *inData, size_t sizeBytes )`:
the returned count and the stream afterwards; `none` when a null handle
reaches `fwrite`. -/
def write (os : OS H) (s : fstream H) (inData : List Nat) (sizeBytes : Nat) :
    Option (Nat × fstream H) :=
  if s.m_canWrite then
    match s.m_handle with
    | none => none
    | some h =>
      let r := os.fwrite h inData sizeBytes
      let retVal := r.1
      let s1 : fstream H := { s.log (OSCall.fwrite inData sizeBytes) with m_handle := some r.2 }
      if retVal ≠ sizeBytes then
        some (retVal, s1.orBits badbit)
      else
        some (retVal, s1)
  else
    some (SIZE_MAX, s.orBits failbit)

/-- The function `fstream::tell`. -/
def tell (os : OS H) (s : fstream H) : Option (Nat × fstream H) :=
  let g := good os s
  if !g.1 then
    some (SIZE_MAX, g.2.orBits failbit)
  else
    match g.2.m_handle with
    | none => none
    | some h =>
      let position := os.ftell h
      let s1 := g.2.log OSCall.ftell
      let s2 := if position = -1 then s1.orBits badbit else s1
      some (toSizeT position, s2)

/-- The translation of `whence` by the `switch` of `fstream::seek`. -/
def fileWhence : Whence → Int
  | Whence.beg => SEEK_SET
  | Whence.cur => SEEK_CUR
  | Whence.end_ => SEEK_END

/-- The part of `fstream::seek` from the call of `fseek` on (lines 183-215),
with the local `fileSize` as a parameter. -/
def seekRaw (os : OS H) (s : fstream H) (fileSize : Nat) (dir : Int) (whence : Whence) :
    Option (fstream H) :=
  match s.m_handle with
  | none => none
  | some h =>
    let r := os.fseek h dir (fileWhence whence)
    let status := r.1
    let s1 : fstream H :=
      { s.log (OSCall.fseek dir (fileWhence whence)) with m_handle := some r.2 }
    if status ≠ 0 then
      let s2 := s1.orBits failbit
      if os.ferror r.2 ≠ 0 then some ((s2.log OSCall.ferror).orBits badbit)
      else some (s2.log OSCall.ferror)
    else
      if s1.m_statusBits = eof then
        match tell os s1 with
        | none => none
        | some (currPos, s2) =>
          if currPos < fileSize then some { s2 with m_statusBits := 0 }
          else some s2
      else some s1

/-- The function `fstream::seek( ptrdiff_t dir, Whence whence )`. -/
def seek (os : OS H) (s : fstream H) (dir : Int) (whence : Whence) : Option (fstream H) :=
  let g := good os s
  if !g.1 then
    some (g.2.orBits failbit)
  else
    if is_eof g.2 then
      match tell os g.2 with
      | none => none
      | some (fileSize, s1) =>
        let g1 := good os s1
        if !g1.1 then some g1.2
        else seekRaw os g1.2 fileSize dir whence
    else
      seekRaw os g.2 0 dir whence

/-- The function `fstream::getFileSize( const bool bRestoreOffset )`. -/
def getFileSize (os : OS H) (s : fstream H) (bRestoreOffset : Bool) :
    Option (Nat × fstream H) :=
  let g := good os s
  if !g.1 then
    some (SIZE_MAX, g.2.orBits failbit)
  else
    match (if bRestoreOffset then tell os g.2 else some (0, g.2)) with
    | none => none
    | some (currentPos, s1) =>
      match seek os s1 0 Whence.end_ with
      | none => none
      | some s2 =>
        match tell os s2 with
        | none => none
        | some (fileSize, s3) =>
          if bRestoreOffset then
            match seek os s3 (toPtrdiff currentPos) Whence.beg with
            | none => none
            | some s4 => some (fileSize, s4)
          else some (fileSize, s3)

/-- The function `fstream::flush`.  The source has no null guard: without a
handle it calls `fflush( NULL )`, which C defines, and goes on with its
status. -/
def flush (os : OS H) (s : fstream H) : Option (Int × fstream H) :=
  if s.m_canWrite then
    match s.m_handle with
    | none =>
      let status := os.fflush_null
      let s1 : fstream H := s.log OSCall.fflush_null
      if status ≠ 0 then some (status, s1.orBits badbit)
      else some (status, s1)
    | some h =>
      let r := os.fflush h
      let status := r.1
      let s1 : fstream H := { s.log OSCall.fflush with m_handle := some r.2 }
      if status ≠ 0 then some (status, s1.orBits badbit)
      else some (status, s1)
  else
    some (-1, s.orBits failbit)

/-- The descriptor-level part of `fstream::fsync` (lines 285-310), one branch
per preprocessor configuration. -/
def syncDescriptor (os : OS H) (pf : Platform) (s : fstream H) (h : H) (preferDataSync : Bool) :
    fstream H :=
  match pf with
  | Platform.apple =>
    let r := os.fcntl_fullfsync h
    let s1 : fstream H := { s.log OSCall.fcntl_fullfsync with m_handle := some r.2 }
    if r.1 ≠ 0 then
      let r2 := os.fsync r.2
      let s2 : fstream H := { s1.log OSCall.fsync with m_handle := some r2.2 }
      if r2.1 ≠ 0 then s2.orBits badbit else s2
    else s1
  | Platform.posix =>
    if !preferDataSync then
      let r := os.fsync h
      let s1 : fstream H := { s.log OSCall.fsync with m_handle := some r.2 }
      if r.1 ≠ 0 then s1.orBits badbit else s1
    else
      let r := os.fdatasync h
      let s1 : fstream H := { s.log OSCall.fdatasync with m_handle := some r.2 }
      if r.1 ≠ 0 then s1.orBits badbit else s1
  | Platform.win32 =>
    let r := os.commit h
    let s1 : fstream H := { s.log OSCall.commit with m_handle := some r.2 }
    if r.1 ≠ 0 then s1.orBits badbit else s1

/-- The function `fstream::fsync( bool preferDataSync )`, which the spec calls
`durableSync`.  Without a handle `flush()` returns and `fileno( NULL )` is the
fault. -/
def fsync (os : OS H) (pf : Platform) (s : fstream H) (preferDataSync : Bool) :
    Option (fstream H) :=
  if !s.m_canWrite then
    some (s.orBits failbit)
  else
    match flush os s with
    | none => none
    | some (_, s1) =>
      match s1.m_handle with
      | none => none
      | some h =>
        let fileDescriptor := os.fileno h
        let s2 := s1.log OSCall.fileno
        if fileDescriptor = -1 then some (s2.orBits badbit)
        else some (syncDescriptor os pf s2 h preferDataSync)

/-- The `modeStr` chosen by the `switch` of `fstream::open`. -/
def modeStr : FileOpenMode → String
  | FileOpenMode.Input => "rb"
  | FileOpenMode.InputEnd => "rb"
  | FileOpenMode.OutputKeep => "r+b"
  | FileOpenMode.OutputKeepEnd => "r+b"
  | FileOpenMode.OutputDiscard => "w+b"
  | FileOpenMode.InOutKeep => "r+b"
  | FileOpenMode.InOutEnd => "r+b"

/-- The capability flags set by the `switch` of `fstream::open`, applied to the
stream `close()` has left. -/
def setCaps (s : fstream H) : FileOpenMode → fstream H
  | FileOpenMode.Input => { s with m_canRead := true }
  | FileOpenMode.InputEnd => { s with m_canRead := true }
  | FileOpenMode.OutputKeep => { s with m_canWrite := true }
  | FileOpenMode.OutputKeepEnd => { s with m_canWrite := true }
  | FileOpenMode.OutputDiscard => { s with m_canWrite := true }
  | FileOpenMode.InOutKeep => { s with m_canRead := true, m_canWrite := true }
  | FileOpenMode.InOutEnd => { s with m_canRead := true, m_canWrite := true }

/-- The function `fstream::open( const char *fullpath, FileOpenMode mode, bool )`. -/
def open_ (os : OS H) (s : fstream H) (fullpath : String) (mode : FileOpenMode) :
    Option (fstream H) :=
  let s1 := setCaps (close s) mode
  let s2 : fstream H :=
    { s1.log (OSCall.fopen fullpath (modeStr mode)) with
      m_handle := os.fopen fullpath (modeStr mode) }
  if s2.m_handle.isSome && (mode == FileOpenMode.InputEnd || mode == FileOpenMode.InOutEnd ||
      mode == FileOpenMode.OutputKeepEnd) then
    seek os s2 0 Whence.end_
  else some s2

/-- Modelled from the spec: the generic `fstream::read<T>` is defined in
`sds/sds_fstream.h`, which is not part of the sources; per the spec it reads
the raw bytes of the value through `read`, one byte for `uint8_t`.  The result
carries the returned count and the value of `outValue` afterwards. -/
def read_uint8 (os : OS H) (s : fstream H) (outValue : Nat) :
    Option ((Nat × Nat) × fstream H) :=
  match read os s [outValue] 1 with
  | none => none
  | some ((retVal, out), s1) => some ((retVal, out.headD outValue), s1)

/-- Modelled from the spec: the generic `fstream::write<T>` of the absent
header, for `uint8_t`: the one raw byte of the value goes through `write`. -/
def write_uint8 (os : OS H) (s : fstream H) (inValue : Nat) : Option (Nat × fstream H) :=
  write os s [inValue] 1

/-- The specialisation `fstream::read<bool>( bool &outValue )`: the returned
count and `outValue` afterwards. -/
def read_bool (os : OS H) (s : fstream H) : Option ((Nat × Bool) × fstream H) :=
  match read_uint8 os s 0 with
  | none => none
  | some ((retVal, value), s1) => some ((retVal, value != 0), s1)

/-- The specialisation `fstream::write<bool>( bool inValue )`. -/
def write_bool (os : OS H) (s : fstream H) (inValue : Bool) : Option (Nat × fstream H) :=
  write_uint8 os s (if inValue then 1 else 0)

/-! ## A well-behaved stdio -/

/-- The state behind a `FILE *` of the reference stdio: the bytes of the file,
the current offset, whether the stream was opened for update, and the two
indicators. -/
structure File where
  data : List Nat
  pos : Nat
  writable : Bool
  eofInd : Bool
  errInd : Bool
  deriving DecidableEq, Repr

/-- The file contents after `bytes` are written at offset `pos` (a gap past the
old end is filled with zeros). -/
def overwrite (old : List Nat) (pos : Nat) (bytes : List Nat) : List Nat :=
  old.take pos ++ List.replicate (pos - old.length) 0 ++ bytes ++ old.drop (pos + bytes.length)

/-- The reference `fopen`: "rb" and "r+b" need an existing file, "w+b" creates
or truncates. -/
def stdio_fopen (fs : String → Option (List Nat)) (path mode : String) : Option File :=
  if mode = "rb" then
    (fs path).map fun d => { data := d, pos := 0, writable := false, eofInd := false, errInd := false }
  else if mode = "r+b" then
    (fs path).map fun d => { data := d, pos := 0, writable := true, eofInd := false, errInd := false }
  else if mode = "w+b" then
    some { data := [], pos := 0, writable := true, eofInd := false, errInd := false }
  else none

/-- The reference `fread`: transfers what is left of the file, at most `n`
bytes, and raises the end-of-file indicator on a short transfer. -/
def stdio_fread (f : File) (n : Nat) : List Nat × File :=
  let bytes := (f.data.drop f.pos).take n
  (bytes, { f with pos := f.pos + bytes.length, eofInd := f.eofInd || decide (bytes.length < n) })

/-- The reference `fwrite`: on a stream not opened for update nothing is
written and the error indicator is raised. -/
def stdio_fwrite (f : File) (inData : List Nat) (n : Nat) : Nat × File :=
  if n = 0 then (0, f)
  else if !f.writable then (0, { f with errInd := true })
  else
    let bytes := inData.take n
    (bytes.length, { f with data := overwrite f.data f.pos bytes, pos := f.pos + bytes.length })

/-- The reference `fseek`: fails on an unknown anchor or a negative target,
otherwise moves (possibly past the end) and clears the end-of-file indicator. -/
def stdio_fseek (f : File) (offset : Int) (whence : Int) : Int × File :=
  if whence = SEEK_SET ∨ whence = SEEK_CUR ∨ whence = SEEK_END then
    let base : Int :=
      if whence = SEEK_SET then 0
      else if whence = SEEK_CUR then (f.pos : Int)
      else (f.data.length : Int)
    if base + offset < 0 then (-1, f)
    else (0, { f with pos := (base + offset).toNat, eofInd := false })
  else (-1, f)

/-- The reference `ftell`: the offset, or -1 when it does not fit a `long`. -/
def stdio_ftell (f : File) : Int :=
  if f.pos < 2 ^ (SIZE_BITS - 1) then (f.pos : Int) else -1

/-- A stdio over the files `fs` in which no device error ever happens. -/
def stdio (fs : String → Option (List Nat)) : OS File :=
  { fopen := stdio_fopen fs
    fclose := fun _ => 0
    ferror := fun f => if f.errInd then 1 else 0
    feof := fun f => if f.eofInd then 1 else 0
    fread := stdio_fread
    fwrite := stdio_fwrite
    fseek := stdio_fseek
    ftell := stdio_ftell
    fflush := fun f => (0, f)
    fflush_null := 0
    fileno := fun _ => 3
    fcntl_fullfsync := fun f => (0, f)
    fsync := fun f => (0, f)
    fdatasync := fun f => (0, f)
    commit := fun f => (0, f) }

/-- A file system with no file at all. -/
def noFiles : String → Option (List Nat) := fun _ => none

/-- A file system with the single file `name`. -/
def oneFile (name : String) (d : List Nat) : String → Option (List Nat) :=
  fun p => if p = name then some d else none

/-- The offset a seek by `dir` from the anchor `whence` aims at in the file `f`. -/
def seekTarget (f : File) (dir : Int) : Whence → Int
  | Whence.beg => dir
  | Whence.cur => (f.pos : Int) + dir
  | Whence.end_ => (f.data.length : Int) + dir

/-! ## Predicates used by the statements -/

/-- The register holds no bit outside `bad`, `fail`, `eof`. -/
def validRegister (bits : Nat) : Prop := bits ≤ (badbit ||| failbit ||| eof)

instance (bits : Nat) : Decidable (validRegister bits) := by
  unfold validRegister; infer_instance

/-- Some bit of `mask` is set in `bits`. -/
def hasBit (bits mask : Nat) : Bool := bits &&& mask != 0

/-- Per the C standard a mode string starting with `w` truncates an existing
file to length zero and creates a missing one; `r` modes do neither. -/
def truncatesOrCreates (mode : String) : Bool := mode.front == 'w'

/-- The capabilities the spec's table gives for a mode: (read, write). -/
def specCaps : FileOpenMode → Bool × Bool
  | FileOpenMode.Input => (true, false)
  | FileOpenMode.InputEnd => (true, false)
  | FileOpenMode.OutputKeep => (false, true)
  | FileOpenMode.OutputKeepEnd => (false, true)
  | FileOpenMode.OutputDiscard => (false, true)
  | FileOpenMode.InOutKeep => (true, true)
  | FileOpenMode.InOutEnd => (true, true)

/-- The modes whose initial position is the end of the file. -/
def fromEnd (mode : FileOpenMode) : Bool :=
  mode == FileOpenMode.InputEnd || mode == FileOpenMode.InOutEnd ||
    mode == FileOpenMode.OutputKeepEnd

/-! ## Sample inputs -/

/-- A three-byte file read to its end: offset 3, end-of-file indicator set. -/
def fileAtEnd : File :=
  { data := [10, 20, 30], pos := 3, writable := false, eofInd := true, errInd := false }

/-- A read-only stream that has observed the end of `fileAtEnd`. -/
def streamAtEof : fstream File :=
  { m_handle := some fileAtEnd, m_statusBits := eof, m_canRead := true, m_canWrite := false,
    calls := [] }

/-- A stream on `fileAtEnd` whose `fail` bit is set. -/
def streamFailed : fstream File :=
  { m_handle := some fileAtEnd, m_statusBits := failbit, m_canRead := true, m_canWrite := false,
    calls := [] }

/-- A five-byte file opened for update, at offset 0. -/
def fileForUpdate : File :=
  { data := [9, 9, 9, 9, 9], pos := 0, writable := true, eofInd := false, errInd := false }

/-- The stream `open( "a.bin", InOutKeep )` gives on that file. -/
def streamReadWrite : fstream File :=
  { m_handle := some fileForUpdate, m_statusBits := 0, m_canRead := true, m_canWrite := true,
    calls := [OSCall.fopen "a.bin" "r+b"] }

/-- The stream `open( "missing.bin", Input )` leaves when no such file exists. -/
def failedOpen : Option (fstream File) :=
  open_ (stdio noFiles) fstream.mk0 "missing.bin" FileOpenMode.Input

/-- What the end-of-file scenarios observe of a stream: the register, and the
offset and file size behind the handle. -/
def observe (s : fstream File) : Nat × Option (Nat × Nat) :=
  (s.m_statusBits, s.m_handle.map fun f => (f.pos, f.data.length))

/-- The stdio with the single three-byte file `a.bin`. -/
def osThreeBytes : OS File := stdio (oneFile "a.bin" [10, 20, 30])

/-- Scenario, step 1: `open( "a.bin", Input )` on a fresh stream. -/
def afterOpen : Option (fstream File) :=
  open_ osThreeBytes fstream.mk0 "a.bin" FileOpenMode.Input

/-- Scenario, step 2: `read( buf, 4 )`, a short read that reaches the end. -/
def afterShortRead : Option (fstream File) :=
  afterOpen.bind fun s => (read osThreeBytes s [0, 0, 0, 0] 4).map Prod.snd

/-- Scenario, step 3: `seek( 10, beg )`, past the end of the file. -/
def afterSeekPastEnd : Option (fstream File) :=
  afterShortRead.bind fun s => seek osThreeBytes s 10 Whence.beg

/-- Scenario, step 4: `seek( 5, beg )`, still past the end of the file. -/
def afterSeekBack : Option (fstream File) :=
  afterSeekPastEnd.bind fun s => seek osThreeBytes s 5 Whence.beg

/-- Every bit set in the register `b` is set in `b'`. -/
def keepsBits (b b' : Nat) : Prop := ∀ i, b.testBit i = true → b'.testBit i = true

/-- Every bit set in the register `b`, the `eof` bit apart, is set in `b'`. -/
def keepsBitsButEof (b b' : Nat) : Prop :=
  ∀ i, b.testBit i = true → b'.testBit i = true ∨ eof.testBit i = true

/-- The `bad` and `fail` bits of the register `b` are still set in `b'`. -/
def sticky (b b' : Nat) : Prop :=
  (hasBit b badbit = true → hasBit b' badbit = true) ∧
  (hasBit b failbit = true → hasBit b' failbit = true)

/-- A stream on a five-byte file, offset 3, register `{eof}`: the file has
grown by two bytes since the end was observed. -/
def streamGrownFile : fstream File :=
  { m_handle := some { data := [10, 20, 30, 40, 50], pos := 3, writable := false,
                       eofInd := true, errInd := false },
    m_statusBits := eof, m_canRead := true, m_canWrite := false, calls := [] }

/-! ## The container `sds::static_vector` (`include/sds/sds_static_vector.h`) -/

/-- The members of `sds::static_vector<T, N>`.  `m_data` is the array, slot `i`
for `i < N` (the default constructor leaves the slots as they are); an iterator
is the offset from `begin()`. -/
structure static_vector (T : Type) (N : Nat) where
  m_data : Nat → T
  m_size : Nat

/-- The constructor `static_vector()`, on storage holding `d`. -/
def static_vector.new {T : Type} {N : Nat} (d : Nat → T) : static_vector T N :=
  { m_data := d, m_size := 0 }

/-- The function `static_vector::end`, as an offset from `begin()`. -/
def static_vector.end_ {T : Type} {N : Nat} (v : static_vector T N) : Nat := v.m_size

/-- The function `static_vector::size`. -/
def static_vector.size {T : Type} {N : Nat} (v : static_vector T N) : Nat := v.m_size

/-- The function `static_vector::push_back`. -/
def static_vector.push_back {T : Type} {N : Nat} (v : static_vector T N) (value : T) :
    static_vector T N :=
  if v.m_size < N then
    { m_data := Function.update v.m_data v.m_size value, m_size := v.m_size + 1 }
  else v

/-- The function `static_vector::pop_back`. -/
def static_vector.pop_back {T : Type} {N : Nat} (v : static_vector T N) : static_vector T N :=
  if v.m_size > 0 then { v with m_size := v.m_size - 1 } else v

/-- The `while( itor + 1u != endt )` loop of `static_vector::erase`; `none`
when the fuel runs out before the loop ends. -/
def static_vector.eraseLoop {T : Type} :
    Nat → (Nat → T) → Nat → Nat → Option (Nat → T)
  | 0, _, _, _ => none
  | fuel + 1, m_data, itor, endt =>
    if itor + 1 ≠ endt then
      static_vector.eraseLoop fuel (Function.update m_data itor (m_data (itor + 1)))
        (itor + 1) endt
    else some m_data

/-- The function `static_vector::erase`: the returned iterator and the vector
afterwards; `none` when the assertion fails.  The loop gets `m_size` units of
fuel. -/
def static_vector.erase {T : Type} {N : Nat} (v : static_vector T N) (toErase : Nat) :
    Option (Nat × static_vector T N) :=
  if toErase = v.end_ then some (toErase, v)
  else if ¬ (v.m_size > 0 ∧ toErase ≥ 0 ∧ toErase ≤ v.end_) then none
  else
    match static_vector.eraseLoop v.m_size v.m_data toErase v.end_ with
    | none => none
    | some d => some (toErase, { m_data := d, m_size := v.m_size - 1 })

/-- The stored sequence `e_0 .. e_{size-1}`. -/
def static_vector.toList {T : Type} {N : Nat} (v : static_vector T N) : List T :=
  (List.range v.m_size).map v.m_data

/-- One call on a `static_vector`. -/
inductive VecOp (T : Type)
  | push (value : T)
  | pop
  | erase (toErase : Nat)

/-- The vector after one call; `none` when the assertion of `erase` fails. -/
def static_vector.step {T : Type} {N : Nat} (v : static_vector T N) :
    VecOp T → Option (static_vector T N)
  | VecOp.push value => some (v.push_back value)
  | VecOp.pop => some v.pop_back
  | VecOp.erase toErase => (v.erase toErase).map Prod.snd

/-- The vector after a sequence of calls, first call first. -/
def static_vector.run {T : Type} {N : Nat} (v : static_vector T N) :
    List (VecOp T) → Option (static_vector T N)
  | [] => some v
  | op :: ops =>
    match v.step op with
    | none => none
    | some v1 => static_vector.run v1 ops

/-- A vector of capacity 3 holding 7, 8, 9. -/
def vec789 : static_vector Nat 3 :=
  { m_data := fun i => 7 + i, m_size := 3 }

/-- The calls `good`, `tell` and `seek` may make. -/
def positioningCall (c : OSCall) : Prop :=
  c = OSCall.ferror ∨ c = OSCall.ftell ∨ ∃ d w, c = OSCall.fseek d w

/-- The relation between a stream and the stream after a health query or a
repositioning: capabilities kept, a handle is held after iff one was held
before, and the log grew by positioning calls only. -/
def Extends {H : Type} (s s' : fstream H) : Prop :=
  s'.m_canRead = s.m_canRead ∧ s'.m_canWrite = s.m_canWrite ∧
  s'.m_handle.isSome = s.m_handle.isSome ∧
  ∃ extra, s'.calls = s.calls ++ extra ∧ ∀ c ∈ extra, positioningCall c

/-! ## Basic facts -/

section Facts

variable {H : Type}

theorem or_and_self (x m : Nat) : (x ||| m) &&& m = m := by
  apply Nat.eq_of_testBit_eq
  intro i
  simp only [Nat.testBit_and, Nat.testBit_or]
  cases x.testBit i <;> cases m.testBit i <;> rfl

theorem or_and_disjoint (x m k : Nat) (hd : m &&& k = 0) : (x ||| m) &&& k = x &&& k := by
  rw [Nat.and_distrib_right, hd, Nat.or_zero]

theorem hasBit_or_self (x m : Nat) (hm : m ≠ 0) : hasBit (x ||| m) m = true := by
  simp [hasBit, or_and_self, hm]

theorem hasBit_or_disjoint (x m k : Nat) (hd : m &&& k = 0) :
    hasBit (x ||| m) k = hasBit x k := by
  simp [hasBit, or_and_disjoint x m k hd]

theorem good_handle (os : OS H) (s : fstream H) : (good os s).2.m_handle = s.m_handle := by
  unfold good
  cases hh : s.m_handle with
  | none => simp [hh]
  | some h =>
    simp only
    split_ifs <;> simp [fstream.log, fstream.orBits, hh]

theorem good_true_handle (os : OS H) (s : fstream H) (hg : (good os s).1 = true) :
    ∃ h, s.m_handle = some h := by
  unfold good at hg
  cases hh : s.m_handle with
  | none => simp [hh] at hg
  | some h => exact ⟨h, rfl⟩

theorem Extends.refl (s : fstream H) : Extends s s :=
  ⟨rfl, rfl, rfl, [], by simp, by simp⟩

theorem Extends.trans {s s1 s2 : fstream H} (h1 : Extends s s1) (h2 : Extends s1 s2) :
    Extends s s2 := by
  obtain ⟨a1, b1, c1, e1, d1, p1⟩ := h1
  obtain ⟨a2, b2, c2, e2, d2, p2⟩ := h2
  refine ⟨a2.trans a1, b2.trans b1, c2.trans c1, e1 ++ e2, ?_, ?_⟩
  · rw [d2, d1, List.append_assoc]
  · intro c hc
    rcases List.mem_append.mp hc with hc | hc
    · exact p1 c hc
    · exact p2 c hc

theorem Extends.orBits (s : fstream H) (b : Nat) : Extends s (s.orBits b) :=
  ⟨rfl, rfl, rfl, [], by simp [fstream.orBits], by simp⟩

theorem Extends.setBits (s : fstream H) (b : Nat) : Extends s { s with m_statusBits := b } :=
  ⟨rfl, rfl, rfl, [], by simp, by simp⟩

theorem Extends.log (s : fstream H) (c : OSCall) (hc : positioningCall c) :
    Extends s (s.log c) :=
  ⟨rfl, rfl, rfl, [c], rfl, by simpa using hc⟩

theorem Extends.setHandle (s : fstream H) (h : H) (hs : s.m_handle.isSome = true) :
    Extends s { s with m_handle := some h } :=
  ⟨rfl, rfl, by simp [hs], [], by simp, by simp⟩

theorem positioningCall_ferror : positioningCall OSCall.ferror := Or.inl rfl

theorem positioningCall_ftell : positioningCall OSCall.ftell := Or.inr (Or.inl rfl)

theorem positioningCall_fseek (d w : Int) : positioningCall (OSCall.fseek d w) :=
  Or.inr (Or.inr ⟨d, w, rfl⟩)

theorem good_extends (os : OS H) (s : fstream H) : Extends s (good os s).2 := by
  unfold good
  cases hh : s.m_handle with
  | none => exact Extends.refl s
  | some h =>
    simp only
    split_ifs
    · exact (Extends.log s _ positioningCall_ferror).trans (Extends.orBits _ _)
    · exact Extends.log s _ positioningCall_ferror
    · exact Extends.refl s

theorem tell_extends (os : OS H) (s : fstream H) :
    ∃ v s', tell os s = some (v, s') ∧ Extends s s' := by
  unfold tell
  simp only
  cases hg : (good os s).1 with
  | false =>
    exact ⟨SIZE_MAX, (good os s).2.orBits failbit, by simp,
      (good_extends os s).trans (Extends.orBits _ _)⟩
  | true =>
    obtain ⟨h, hh⟩ := good_true_handle os s hg
    have hh2 : (good os s).2.m_handle = some h := by rw [good_handle, hh]
    simp only [hh2, Bool.not_true, Bool.false_eq_true, if_false]
    refine ⟨_, _, rfl, ?_⟩
    have hl := (good_extends os s).trans (Extends.log _ _ positioningCall_ftell)
    split_ifs
    · exact hl.trans (Extends.orBits _ _)
    · exact hl

theorem seekRaw_extends (os : OS H) (s : fstream H) (fileSize : Nat) (dir : Int)
    (whence : Whence) (hs : s.m_handle.isSome = true) :
    ∃ s', seekRaw os s fileSize dir whence = some s' ∧ Extends s s' := by
  unfold seekRaw
  cases hh : s.m_handle with
  | none => simp [hh] at hs
  | some h =>
    simp only
    have h1 : Extends s { s.log (OSCall.fseek dir (fileWhence whence)) with
        m_handle := some (os.fseek h dir (fileWhence whence)).2 } :=
      (Extends.log s _ (positioningCall_fseek _ _)).trans
        (Extends.setHandle _ _ (by simp [fstream.log, hh]))
    split_ifs with hst hf he
    · exact ⟨_, rfl, ((h1.trans (Extends.orBits _ _)).trans
        (Extends.log _ _ positioningCall_ferror)).trans (Extends.orBits _ _)⟩
    · exact ⟨_, rfl, (h1.trans (Extends.orBits _ _)).trans
        (Extends.log _ _ positioningCall_ferror)⟩
    · obtain ⟨v, s2, ht, hx⟩ := tell_extends os { s.log (OSCall.fseek dir (fileWhence whence)) with
        m_handle := some (os.fseek h dir (fileWhence whence)).2 }
      simp only [ht]
      split_ifs
      · exact ⟨_, rfl, (h1.trans hx).trans (Extends.setBits _ _)⟩
      · exact ⟨_, rfl, h1.trans hx⟩
    · exact ⟨_, rfl, h1⟩

theorem seek_extends (os : OS H) (s : fstream H) (dir : Int) (whence : Whence) :
    ∃ s', seek os s dir whence = some s' ∧ Extends s s' := by
  unfold seek
  simp only
  cases hg : (good os s).1 with
  | false =>
    exact ⟨(good os s).2.orBits failbit, by simp, (good_extends os s).trans (Extends.orBits _ _)⟩
  | true =>
    obtain ⟨h, hh⟩ := good_true_handle os s hg
    have hh2 : (good os s).2.m_handle.isSome = true := by rw [good_handle, hh]; rfl
    simp only [Bool.not_true, Bool.false_eq_true, if_false]
    split_ifs
    · obtain ⟨v, s1, ht, hx⟩ := tell_extends os (good os s).2
      simp only [ht]
      have hs1 : s1.m_handle.isSome = true := by rw [hx.2.2.1, hh2]
      cases hg1 : (good os s1).1 with
      | false =>
        exact ⟨(good os s1).2, by simp,
          ((good_extends os s).trans hx).trans (good_extends os s1)⟩
      | true =>
        simp only [Bool.not_true, Bool.false_eq_true, if_false]
        have hs2 : (good os s1).2.m_handle.isSome = true := by rw [good_handle, hs1]
        obtain ⟨s3, hk, hx3⟩ := seekRaw_extends os (good os s1).2 v dir whence hs2
        exact ⟨s3, hk, (((good_extends os s).trans hx).trans (good_extends os s1)).trans hx3⟩
    · obtain ⟨s3, hk, hx3⟩ := seekRaw_extends os (good os s).2 0 dir whence hh2
      exact ⟨s3, hk, (good_extends os s).trans hx3⟩

theorem good_calls (os : OS H) (s : fstream H) :
    (good os s).2.calls = s.calls ∨ (good os s).2.calls = s.calls ++ [OSCall.ferror] := by
  unfold good
  cases hh : s.m_handle with
  | none => exact Or.inl rfl
  | some h =>
    simp only
    split_ifs
    · exact Or.inr rfl
    · exact Or.inr rfl
    · exact Or.inl rfl

theorem close_caps (s : fstream H) :
    (close s).m_canRead = false ∧ (close s).m_canWrite = false ∧ (close s).m_statusBits = 0 ∧
      (close s).m_handle = none := by
  unfold close
  cases hh : s.m_handle <;> simp [fstream.log, hh]

theorem setCaps_spec (s : fstream H) (mode : FileOpenMode)
    (hr : s.m_canRead = false) (hw : s.m_canWrite = false) :
    ((setCaps s mode).m_canRead, (setCaps s mode).m_canWrite) = specCaps mode ∧
      (setCaps s mode).calls = s.calls ∧ (setCaps s mode).m_statusBits = s.m_statusBits := by
  cases mode <;> simp [setCaps, specCaps, hr, hw]

theorem open_spec (os : OS H) (s : fstream H) (fullpath : String) (mode : FileOpenMode) :
    ∃ s' extra, open_ os s fullpath mode = some s' ∧
      (s'.m_canRead, s'.m_canWrite) = specCaps mode ∧
      s'.m_handle.isSome = (os.fopen fullpath (modeStr mode)).isSome ∧
      s'.calls = (close s).calls ++ OSCall.fopen fullpath (modeStr mode) :: extra ∧
      ∀ c ∈ extra, positioningCall c := by
  obtain ⟨hcr, hcw, -, -⟩ := close_caps s
  obtain ⟨hcaps, hcalls, -⟩ := setCaps_spec (close s) mode hcr hcw
  unfold open_
  simp only
  split_ifs with hc
  · obtain ⟨s', hs, hx⟩ := seek_extends os
      { (setCaps (close s) mode).log (OSCall.fopen fullpath (modeStr mode)) with
        m_handle := os.fopen fullpath (modeStr mode) } 0 Whence.end_
    obtain ⟨a, b, c, extra, d, e⟩ := hx
    refine ⟨s', extra, hs, ?_, ?_, ?_, e⟩
    · rw [a, b]; exact hcaps
    · rw [c]
    · rw [d]; simp [fstream.log, hcalls]
  · exact ⟨_, [], rfl, hcaps, rfl, by simp [fstream.log, hcalls], by simp⟩

theorem toSizeT_natCast (n : Nat) (hn : n < 2 ^ 64) : toSizeT (n : Int) = n := by
  unfold toSizeT SIZE_BITS
  have h : ((n : Int) % (2 ^ 64 : Int)) = (n : Int) :=
    Int.emod_eq_of_lt (Int.natCast_nonneg n) (by exact_mod_cast hn)
  rw [h]
  exact Int.toNat_natCast n

theorem toSizeT_neg_one : toSizeT (-1) = SIZE_MAX := by decide

theorem good_clean (os : OS H) (s : fstream H) (h : H) (hh : s.m_handle = some h)
    (he : os.ferror h = 0) (hb : s.m_statusBits = 0 ∨ s.m_statusBits = eof) :
    good os s = (true, s.log OSCall.ferror) := by
  have e3 : (4 &&& 3 : Nat) = 0 := by decide
  rcases hb with hb | hb <;>
    simp [good, hh, hb, he, fstream.log, badbit, failbit, eof, e3]

theorem tell_clean (os : OS H) (s : fstream H) (h : H) (n : Nat) (hh : s.m_handle = some h)
    (he : os.ferror h = 0) (hb : s.m_statusBits = 0 ∨ s.m_statusBits = eof)
    (hn : os.ftell h = (n : Int)) (hl : n < 2 ^ 63) :
    tell os s = some (n, (s.log OSCall.ferror).log OSCall.ftell) := by
  have hne : ((n : Nat) : Int) ≠ -1 := by omega
  have hlt : n < 2 ^ 64 := by omega
  unfold tell
  simp only [good_clean os s h hh he hb, Bool.not_true, Bool.false_eq_true, if_false]
  have hh2 : (s.log OSCall.ferror).m_handle = some h := by simp [fstream.log, hh]
  simp only [hh2, hn, hne, if_false, toSizeT_natCast n hlt]

theorem seekRaw_eof (os : OS H) (s : fstream H) (h h' : H) (fileSize : Nat) (dir : Int)
    (whence : Whence) (p : Nat) (hh : s.m_handle = some h) (hb : s.m_statusBits = eof)
    (hseek : os.fseek h dir (fileWhence whence) = (0, h'))
    (he' : os.ferror h' = 0) (hp : os.ftell h' = (p : Int)) (hpl : p < 2 ^ 63) :
    ∃ s', seekRaw os s fileSize dir whence = some s' ∧ s'.m_handle = some h' ∧
      (p < fileSize → s'.m_statusBits = 0) ∧ (fileSize ≤ p → s'.m_statusBits = eof) := by
  obtain ⟨hd, bits, cr, cw, calls⟩ := s
  simp only at hh hb
  subst hh hb
  have ht := tell_clean os
    { m_handle := some h', m_statusBits := eof, m_canRead := cr, m_canWrite := cw,
      calls := calls ++ [OSCall.fseek dir (fileWhence whence)] } h' p rfl he' (Or.inr rfl) hp hpl
  unfold seekRaw
  simp only [hseek, fstream.log, ne_eq, not_true_eq_false, if_false, if_true, ht]
  by_cases hlt : p < fileSize
  · simp only [hlt, if_true]
    exact ⟨_, rfl, rfl, fun _ => rfl, fun hle => absurd hlt (by omega)⟩
  · simp only [hlt, if_false]
    exact ⟨_, rfl, rfl, fun hc => hc.elim, fun _ => rfl⟩

/-! ### Stickiness of the register -/

theorem hasBit_two_pow (b i : Nat) : hasBit b (2 ^ i) = b.testBit i := by
  unfold hasBit
  rw [Nat.and_two_pow]
  cases b.testBit i <;> simp

theorem hasBit_badbit (b : Nat) : hasBit b badbit = b.testBit 0 := hasBit_two_pow b 0

theorem hasBit_failbit (b : Nat) : hasBit b failbit = b.testBit 1 := hasBit_two_pow b 1

theorem hasBit_eof (b : Nat) : hasBit b eof = b.testBit 2 := hasBit_two_pow b 2

theorem keepsBits.kRefl (b : Nat) : keepsBits b b := fun _ h => h

theorem keepsBits.kTrans {a b c : Nat} (h1 : keepsBits a b) (h2 : keepsBits b c) :
    keepsBits a c := fun i h => h2 i (h1 i h)

theorem keepsBits_or (b m : Nat) : keepsBits b (b ||| m) := by
  intro i h
  simp [Nat.testBit_or, h]

theorem keepsBits.butEof {a b : Nat} (h : keepsBits a b) : keepsBitsButEof a b :=
  fun i hi => Or.inl (h i hi)

theorem keepsBitsButEof.eTrans {a b c : Nat} (h1 : keepsBitsButEof a b)
    (h2 : keepsBitsButEof b c) : keepsBitsButEof a c := by
  intro i hi
  rcases h1 i hi with h | h
  · exact h2 i h
  · exact Or.inr h

theorem keepsBitsButEof_clear (b : Nat) : keepsBitsButEof eof b := fun _ h => Or.inr h

theorem keepsBitsButEof.bad {a b : Nat} (h : keepsBitsButEof a b)
    (ha : hasBit a badbit = true) : hasBit b badbit = true := by
  rw [hasBit_badbit] at ha ⊢
  rcases h 0 ha with h | h
  · exact h
  · exact absurd h (by decide)

theorem keepsBitsButEof.fail {a b : Nat} (h : keepsBitsButEof a b)
    (ha : hasBit a failbit = true) : hasBit b failbit = true := by
  rw [hasBit_failbit] at ha ⊢
  rcases h 1 ha with h | h
  · exact h
  · exact absurd h (by decide)

theorem good_keeps (os : OS H) (s : fstream H) :
    keepsBits s.m_statusBits (good os s).2.m_statusBits := by
  unfold good
  cases hh : s.m_handle with
  | none => exact keepsBits.kRefl _
  | some h =>
    simp only
    split_ifs
    · exact keepsBits_or _ _
    · exact keepsBits.kRefl _
    · exact keepsBits.kRefl _

theorem tell_keeps (os : OS H) (s : fstream H) (v : Nat) (s' : fstream H)
    (ht : tell os s = some (v, s')) : keepsBits s.m_statusBits s'.m_statusBits := by
  unfold tell at ht
  simp only at ht
  have hg := good_keeps os s
  cases hgd : (good os s).1 with
  | false =>
    simp only [hgd, Bool.not_false, if_true, Option.some.injEq, Prod.mk.injEq] at ht
    rw [← ht.2]
    exact hg.kTrans (keepsBits_or _ _)
  | true =>
    simp only [hgd, Bool.not_true, Bool.false_eq_true, if_false] at ht
    cases hh : (good os s).2.m_handle with
    | none => simp [hh] at ht
    | some h =>
      simp only [hh, Option.some.injEq, Prod.mk.injEq] at ht
      rw [← ht.2]
      split_ifs
      · exact hg.kTrans (keepsBits_or _ _)
      · exact hg

theorem read_keeps (os : OS H) (s : fstream H) (outData : List Nat) (sizeBytes : Nat)
    (r : Nat × List Nat) (s' : fstream H)
    (hr : read os s outData sizeBytes = some (r, s')) :
    keepsBits s.m_statusBits s'.m_statusBits := by
  unfold read at hr
  split_ifs at hr with hc
  · cases hh : s.m_handle with
    | none => simp [hh] at hr
    | some h =>
      simp only [hh] at hr
      split_ifs at hr <;>
        simp only [Option.some.injEq, Prod.mk.injEq] at hr <;>
        rw [← hr.2] <;>
        first
          | exact keepsBits.kRefl _
          | exact keepsBits_or _ _
          | exact (keepsBits_or _ _).kTrans (keepsBits_or _ _)
  · simp only [Option.some.injEq, Prod.mk.injEq] at hr
    rw [← hr.2]
    exact keepsBits_or _ _

theorem write_keeps (os : OS H) (s : fstream H) (inData : List Nat) (sizeBytes : Nat)
    (r : Nat) (s' : fstream H) (hw : write os s inData sizeBytes = some (r, s')) :
    keepsBits s.m_statusBits s'.m_statusBits := by
  unfold write at hw
  split_ifs at hw with hc
  · cases hh : s.m_handle with
    | none => simp [hh] at hw
    | some h =>
      simp only [hh] at hw
      split_ifs at hw <;>
        simp only [Option.some.injEq, Prod.mk.injEq] at hw <;>
        rw [← hw.2]
      · exact keepsBits_or _ _
      · exact keepsBits.kRefl _
  · simp only [Option.some.injEq, Prod.mk.injEq] at hw
    rw [← hw.2]
    exact keepsBits_or _ _

theorem flush_keeps (os : OS H) (s : fstream H) (r : Int) (s' : fstream H)
    (hf : flush os s = some (r, s')) : keepsBits s.m_statusBits s'.m_statusBits := by
  unfold flush at hf
  split_ifs at hf with hc
  · cases hh : s.m_handle with
    | none =>
      simp only [hh] at hf
      split_ifs at hf <;>
        simp only [Option.some.injEq, Prod.mk.injEq] at hf <;>
        rw [← hf.2]
      · exact keepsBits_or _ _
      · exact keepsBits.kRefl _
    | some h =>
      simp only [hh] at hf
      split_ifs at hf <;>
        simp only [Option.some.injEq, Prod.mk.injEq] at hf <;>
        rw [← hf.2]
      · exact keepsBits_or _ _
      · exact keepsBits.kRefl _
  · simp only [Option.some.injEq, Prod.mk.injEq] at hf
    rw [← hf.2]
    exact keepsBits_or _ _

theorem flush_returns (os : OS H) (s : fstream H) : ∃ r s', flush os s = some (r, s') := by
  unfold flush
  split_ifs
  · cases hh : s.m_handle with
    | none =>
      simp only
      split_ifs
      · exact ⟨_, _, rfl⟩
      · exact ⟨_, _, rfl⟩
    | some h =>
      simp only
      split_ifs
      · exact ⟨_, _, rfl⟩
      · exact ⟨_, _, rfl⟩
  · exact ⟨_, _, rfl⟩

theorem getFileSize_returns (os : OS H) (s : fstream H) (bRestoreOffset : Bool) :
    ∃ v s', getFileSize os s bRestoreOffset = some (v, s') := by
  unfold getFileSize
  simp only
  cases hgd : (good os s).1 with
  | false => exact ⟨SIZE_MAX, (good os s).2.orBits failbit, by simp⟩
  | true =>
    simp only [Bool.not_true, Bool.false_eq_true, if_false]
    obtain ⟨currentPos, s1, h1⟩ : ∃ currentPos s1,
        (if bRestoreOffset = true then tell os (good os s).2 else some (0, (good os s).2)) =
          some (currentPos, s1) := by
      split_ifs
      · obtain ⟨v, s1, h, -⟩ := tell_extends os (good os s).2
        exact ⟨v, s1, h⟩
      · exact ⟨0, (good os s).2, rfl⟩
    obtain ⟨s2, h2, -⟩ := seek_extends os s1 0 Whence.end_
    obtain ⟨fileSize, s3, h3, -⟩ := tell_extends os s2
    simp only [h1, h2, h3]
    split_ifs
    · obtain ⟨s4, h4, -⟩ := seek_extends os s3 (toPtrdiff currentPos) Whence.beg
      exact ⟨fileSize, s4, by simp only [h4]⟩
    · exact ⟨fileSize, s3, rfl⟩

theorem read_returns (os : OS H) (s : fstream H) (outData : List Nat) (sizeBytes : Nat)
    (hs : s.m_canRead = false ∨ s.m_handle.isSome = true) :
    ∃ r s', read os s outData sizeBytes = some (r, s') := by
  unfold read
  split_ifs with hc
  · cases hh : s.m_handle with
    | none =>
      rcases hs with hs | hs
      · rw [hs] at hc; exact absurd hc (by simp)
      · rw [hh] at hs; exact absurd hs (by simp)
    | some h =>
      simp only
      split_ifs <;> exact ⟨_, _, rfl⟩
  · exact ⟨_, _, rfl⟩

theorem write_returns (os : OS H) (s : fstream H) (inData : List Nat) (sizeBytes : Nat)
    (hs : s.m_canWrite = false ∨ s.m_handle.isSome = true) :
    ∃ r s', write os s inData sizeBytes = some (r, s') := by
  unfold write
  split_ifs with hc
  · cases hh : s.m_handle with
    | none =>
      rcases hs with hs | hs
      · rw [hs] at hc; exact absurd hc (by simp)
      · rw [hh] at hs; exact absurd hs (by simp)
    | some h =>
      simp only
      split_ifs
      · exact ⟨_, _, rfl⟩
      · exact ⟨_, _, rfl⟩
  · exact ⟨_, _, rfl⟩

theorem syncDescriptor_keeps (os : OS H) (pf : Platform) (s : fstream H) (h : H)
    (preferDataSync : Bool) :
    keepsBits s.m_statusBits (syncDescriptor os pf s h preferDataSync).m_statusBits := by
  unfold syncDescriptor
  cases pf <;> simp only <;> split_ifs <;>
    first
      | exact keepsBits.kRefl _
      | exact keepsBits_or _ _

theorem fsync_keeps (os : OS H) (pf : Platform) (s : fstream H) (preferDataSync : Bool)
    (s' : fstream H) (hf : fsync os pf s preferDataSync = some s') :
    keepsBits s.m_statusBits s'.m_statusBits := by
  unfold fsync at hf
  split_ifs at hf with hc
  · simp only [Option.some.injEq] at hf
    rw [← hf]
    exact keepsBits_or _ _
  · cases hfl : flush os s with
    | none => simp [hfl] at hf
    | some r =>
      obtain ⟨st, s1⟩ := r
      have h1 := flush_keeps os s st s1 hfl
      simp only [hfl] at hf
      cases hh : s1.m_handle with
      | none => simp [hh] at hf
      | some h =>
        simp only [hh] at hf
        split_ifs at hf <;> simp only [Option.some.injEq] at hf <;> rw [← hf]
        · exact h1.kTrans (keepsBits_or _ _)
        · exact h1.kTrans (syncDescriptor_keeps os pf (s1.log OSCall.fileno) h preferDataSync)

theorem seekRaw_keeps (os : OS H) (s : fstream H) (fileSize : Nat) (dir : Int)
    (whence : Whence) (s' : fstream H) (hs : seekRaw os s fileSize dir whence = some s') :
    keepsBitsButEof s.m_statusBits s'.m_statusBits := by
  unfold seekRaw at hs
  cases hh : s.m_handle with
  | none => simp [hh] at hs
  | some h =>
    simp only [hh] at hs
    by_cases hst : (os.fseek h dir (fileWhence whence)).1 ≠ 0
    · rw [if_pos hst] at hs
      split_ifs at hs <;> (try simp only [Option.some.injEq] at hs) <;> rw [← hs]
      · exact ((keepsBits_or _ _).kTrans (keepsBits_or _ _)).butEof
      · exact (keepsBits_or _ _).butEof
    · simp only [hst, if_false] at hs
      by_cases heq : s.m_statusBits = eof
      · have heq2 : (s.log (OSCall.fseek dir (fileWhence whence))).m_statusBits = eof := heq
        rw [if_pos heq2] at hs
        cases ht : tell os { s.log (OSCall.fseek dir (fileWhence whence)) with
            m_handle := some (os.fseek h dir (fileWhence whence)).2 } with
        | none => simp [ht] at hs
        | some r =>
          obtain ⟨currPos, s2⟩ := r
          have hk := tell_keeps os _ currPos s2 ht
          simp only [ht] at hs
          split_ifs at hs <;> simp only [Option.some.injEq] at hs <;> rw [← hs]
          · rw [heq]; exact keepsBitsButEof_clear _
          · exact keepsBits.butEof hk
      · have heq2 : ¬ (s.log (OSCall.fseek dir (fileWhence whence))).m_statusBits = eof := heq
        rw [if_neg heq2] at hs
        simp only [Option.some.injEq] at hs
        rw [← hs]
        exact (keepsBits.kRefl _).butEof

theorem seek_keeps (os : OS H) (s : fstream H) (dir : Int) (whence : Whence) (s' : fstream H)
    (hs : seek os s dir whence = some s') :
    keepsBitsButEof s.m_statusBits s'.m_statusBits := by
  unfold seek at hs
  simp only at hs
  have hg := good_keeps os s
  cases hgd : (good os s).1 with
  | false =>
    simp only [hgd, Bool.not_false, if_true, Option.some.injEq] at hs
    rw [← hs]
    exact (hg.kTrans (keepsBits_or _ _)).butEof
  | true =>
    simp only [hgd, Bool.not_true, Bool.false_eq_true, if_false] at hs
    by_cases he : is_eof (good os s).2 = true
    · simp only [he, if_true] at hs
      cases ht : tell os (good os s).2 with
      | none => simp [ht] at hs
      | some r =>
        obtain ⟨fileSize, s1⟩ := r
        have hk := tell_keeps os _ fileSize s1 ht
        have hg1 := good_keeps os s1
        simp only [ht] at hs
        cases hgd1 : (good os s1).1 with
        | false =>
          simp only [hgd1, Bool.not_false, if_true, Option.some.injEq] at hs
          rw [← hs]
          exact ((hg.kTrans hk).kTrans hg1).butEof
        | true =>
          simp only [hgd1, Bool.not_true, Bool.false_eq_true, if_false] at hs
          exact (((hg.kTrans hk).kTrans hg1).butEof).eTrans (seekRaw_keeps os _ _ _ _ _ hs)
    · simp only [he, if_false] at hs
      exact hg.butEof.eTrans (seekRaw_keeps os _ _ _ _ _ hs)

theorem getFileSize_keeps (os : OS H) (s : fstream H) (bRestoreOffset : Bool) (v : Nat)
    (s' : fstream H) (hs : getFileSize os s bRestoreOffset = some (v, s')) :
    keepsBitsButEof s.m_statusBits s'.m_statusBits := by
  unfold getFileSize at hs
  simp only at hs
  have hg := good_keeps os s
  cases hgd : (good os s).1 with
  | false =>
    simp only [hgd, Bool.not_false, if_true, Option.some.injEq, Prod.mk.injEq] at hs
    rw [← hs.2]
    exact (hg.kTrans (keepsBits_or _ _)).butEof
  | true =>
    simp only [hgd, Bool.not_true, Bool.false_eq_true, if_false] at hs
    cases h1 : (if bRestoreOffset = true then tell os (good os s).2
        else some (0, (good os s).2)) with
    | none => simp [h1] at hs
    | some r1 =>
      obtain ⟨currentPos, s1⟩ := r1
      have hk1 : keepsBits (good os s).2.m_statusBits s1.m_statusBits := by
        split_ifs at h1
        · exact tell_keeps os _ _ _ h1
        · simp only [Option.some.injEq, Prod.mk.injEq] at h1
          rw [← h1.2]
          exact keepsBits.kRefl _
      simp only [h1] at hs
      cases h2 : seek os s1 0 Whence.end_ with
      | none => simp [h2] at hs
      | some s2 =>
        have hk2 := seek_keeps os s1 0 Whence.end_ s2 h2
        simp only [h2] at hs
        cases h3 : tell os s2 with
        | none => simp [h3] at hs
        | some r3 =>
          obtain ⟨fileSize, s3⟩ := r3
          have hk3 := tell_keeps os s2 fileSize s3 h3
          simp only [h3] at hs
          have h03 : keepsBitsButEof s.m_statusBits s3.m_statusBits :=
            ((hg.kTrans hk1).butEof.eTrans hk2).eTrans hk3.butEof
          split_ifs at hs
          · cases h4 : seek os s3 (toPtrdiff currentPos) Whence.beg with
            | none => simp [h4] at hs
            | some s4 =>
              have hk4 := seek_keeps os s3 _ Whence.beg s4 h4
              simp only [h4, Option.some.injEq, Prod.mk.injEq] at hs
              rw [← hs.2]
              exact h03.eTrans hk4
          · simp only [Option.some.injEq, Prod.mk.injEq] at hs
            rw [← hs.2]
            exact h03

theorem flush_handle (os : OS H) (s : fstream H) (h : H) (hw : s.m_canWrite = true)
    (hh : s.m_handle = some h) :
    ∃ r s1, flush os s = some (r, s1) ∧ s1.m_handle = some (os.fflush h).2 := by
  unfold flush
  simp only [hw, if_true, hh]
  split_ifs
  · exact ⟨_, _, rfl, rfl⟩
  · exact ⟨_, _, rfl, rfl⟩

theorem fsync_returns (os : OS H) (pf : Platform) (s : fstream H) (preferDataSync : Bool)
    (hs : s.m_canWrite = false ∨ s.m_handle.isSome = true) :
    ∃ s', fsync os pf s preferDataSync = some s' := by
  unfold fsync
  cases hw : s.m_canWrite with
  | false => exact ⟨s.orBits failbit, by simp⟩
  | true =>
    simp only [Bool.not_true, Bool.false_eq_true, if_false]
    cases hh : s.m_handle with
    | none =>
      rcases hs with hs | hs
      · rw [hs] at hw; exact absurd hw (by simp)
      · rw [hh] at hs; exact absurd hs (by simp)
    | some h =>
      obtain ⟨r, s1, hfl, hh1⟩ := flush_handle os s h hw hh
      simp only [hfl, hh1]
      split_ifs
      · exact ⟨_, rfl⟩
      · exact ⟨_, rfl⟩

theorem keepsBitsButEof.sticky {a b : Nat} (h : keepsBitsButEof a b) : sticky a b :=
  ⟨h.bad, h.fail⟩

theorem read_uint8_keeps (os : OS H) (s : fstream H) (outValue : Nat) (r : Nat × Nat)
    (s' : fstream H) (hr : read_uint8 os s outValue = some (r, s')) :
    keepsBits s.m_statusBits s'.m_statusBits := by
  unfold read_uint8 at hr
  cases h1 : read os s [outValue] 1 with
  | none => simp [h1] at hr
  | some x =>
    obtain ⟨⟨retVal, out⟩, s1⟩ := x
    simp only [h1, Option.some.injEq, Prod.mk.injEq] at hr
    rw [← hr.2]
    exact read_keeps os s _ _ _ _ h1

theorem read_bool_keeps (os : OS H) (s : fstream H) (r : Nat × Bool)
    (s' : fstream H) (hr : read_bool os s = some (r, s')) :
    keepsBits s.m_statusBits s'.m_statusBits := by
  unfold read_bool at hr
  cases h1 : read_uint8 os s 0 with
  | none => simp [h1] at hr
  | some x =>
    obtain ⟨⟨retVal, value⟩, s1⟩ := x
    simp only [h1, Option.some.injEq, Prod.mk.injEq] at hr
    rw [← hr.2]
    exact read_uint8_keeps os s _ _ _ h1

/-! ### The reference stdio -/

theorem stdio_good (fs : String → Option (List Nat)) (s : fstream File) (f : File)
    (hh : s.m_handle = some f) (he : f.errInd = false)
    (hb : s.m_statusBits = 0 ∨ s.m_statusBits = eof) :
    good (stdio fs) s = (true, s.log OSCall.ferror) := by
  have e3 : (4 &&& 3 : Nat) = 0 := by decide
  rcases hb with hb | hb <;>
    simp [good, hh, hb, stdio, he, fstream.log, badbit, failbit, eof, e3]

theorem stdio_tell (fs : String → Option (List Nat)) (s : fstream File) (f : File)
    (hh : s.m_handle = some f) (he : f.errInd = false)
    (hb : s.m_statusBits = 0 ∨ s.m_statusBits = eof) (hp : f.pos < 2 ^ 63) :
    tell (stdio fs) s = some (f.pos, (s.log OSCall.ferror).log OSCall.ftell) := by
  have hne : ((f.pos : Nat) : Int) ≠ -1 := by omega
  have hlt : f.pos < 2 ^ 64 := by omega
  have hft : (stdio fs).ftell f = (f.pos : Int) := by
    have hp2 : f.pos < 2 ^ (SIZE_BITS - 1) := hp
    simp [stdio, stdio_ftell, hp2]
  unfold tell
  simp only [stdio_good fs s f hh he hb, Bool.not_true, Bool.false_eq_true, if_false]
  have hh2 : (s.log OSCall.ferror).m_handle = some f := by simp [fstream.log, hh]
  simp only [hh2, hft, hne, if_false, toSizeT_natCast f.pos hlt]

theorem stdio_fseek_ok (f : File) (dir : Int) (whence : Whence)
    (ht : 0 ≤ seekTarget f dir whence) :
    stdio_fseek f dir (fileWhence whence) =
      (0, { f with pos := (seekTarget f dir whence).toNat, eofInd := false }) := by
  cases whence <;>
    simp [stdio_fseek, fileWhence, SEEK_SET, SEEK_CUR, SEEK_END, seekTarget] at ht ⊢ <;>
    omega

theorem stdio_fseek_fail (f : File) (dir : Int) (whence : Whence)
    (ht : seekTarget f dir whence < 0) :
    stdio_fseek f dir (fileWhence whence) = (-1, f) := by
  cases whence <;>
    simp [stdio_fseek, fileWhence, SEEK_SET, SEEK_CUR, SEEK_END, seekTarget] at ht ⊢ <;>
    omega

theorem stdio_seek_clear (fs : String → Option (List Nat)) (s : fstream File) (f : File)
    (dir : Int) (whence : Whence) (hh : s.m_handle = some f) (he : f.errInd = false)
    (hb : s.m_statusBits = 0) (ht : 0 ≤ seekTarget f dir whence) :
    ∃ s', seek (stdio fs) s dir whence = some s' ∧
      s'.m_handle = some { f with pos := (seekTarget f dir whence).toNat, eofInd := false } ∧
      s'.m_statusBits = 0 ∧ s'.m_canRead = s.m_canRead ∧ s'.m_canWrite = s.m_canWrite := by
  have hfs : (stdio fs).fseek f dir (fileWhence whence) =
      (0, { f with pos := (seekTarget f dir whence).toNat, eofInd := false }) :=
    stdio_fseek_ok f dir whence ht
  unfold seek
  simp only [stdio_good fs s f hh he (Or.inl hb), Bool.not_true, Bool.false_eq_true, if_false]
  have hne : is_eof (s.log OSCall.ferror) = false := by
    simp [is_eof, fstream.log, hb]
  simp only [hne, Bool.false_eq_true, if_false]
  unfold seekRaw
  have hh2 : (s.log OSCall.ferror).m_handle = some f := by simp [fstream.log, hh]
  simp only [hh2, hfs]
  simp [fstream.log, hb, eof]

theorem stdio_getFileSize_noRestore (fs : String → Option (List Nat)) (s : fstream File)
    (f : File) (hh : s.m_handle = some f) (he : f.errInd = false) (hb : s.m_statusBits = 0)
    (hsize : f.data.length < 2 ^ 63) :
    ∃ s', getFileSize (stdio fs) s false = some (f.data.length, s') ∧
      s'.m_handle = some { f with pos := f.data.length, eofInd := false } ∧
      s'.m_statusBits = 0 := by
  have hh1 : (s.log OSCall.ferror).m_handle = some f := by simp [fstream.log, hh]
  have hb1 : (s.log OSCall.ferror).m_statusBits = 0 := by simp [fstream.log, hb]
  have ht : 0 ≤ seekTarget f 0 Whence.end_ := by simp [seekTarget]
  obtain ⟨s2, hs2, hh2, hb2, -, -⟩ :=
    stdio_seek_clear fs (s.log OSCall.ferror) f 0 Whence.end_ hh1 he hb1 ht
  have hpos : (seekTarget f 0 Whence.end_).toNat = f.data.length := by simp [seekTarget]
  rw [hpos] at hh2
  have ht2 := stdio_tell fs s2 _ hh2 he (Or.inl hb2) hsize
  unfold getFileSize
  simp only [stdio_good fs s f hh he (Or.inl hb), Bool.not_true, Bool.false_eq_true, if_false,
    hs2, ht2]
  exact ⟨_, rfl, by simp [fstream.log, hh2], by simp [fstream.log, hb2]⟩

theorem overwrite_zero (old bytes : List Nat) :
    overwrite old 0 bytes = bytes ++ old.drop bytes.length := by
  simp [overwrite]

theorem stdio_fwrite_at_start (f : File) (data : List Nat) (hw : f.writable = true)
    (hp : f.pos = 0) :
    ∃ f1, stdio_fwrite f data data.length = (data.length, f1) ∧ f1.errInd = f.errInd ∧
      f1.data.take data.length = data ∧ data.length ≤ f1.data.length := by
  unfold stdio_fwrite
  by_cases hn : data.length = 0
  · have hd : data = [] := List.length_eq_zero.mp hn
    subst hd
    exact ⟨f, by simp, rfl, by simp, by simp⟩
  · simp only [hn, if_false, hw, Bool.not_true, Bool.false_eq_true, List.take_length, hp,
      overwrite_zero]
    exact ⟨_, rfl, rfl, by simp, by simp⟩

theorem stdio_open_InOutKeep (fs : String → Option (List Nat)) (s : fstream File)
    (fullpath : String) (d : List Nat) (hfile : fs fullpath = some d) :
    open_ (stdio fs) s fullpath FileOpenMode.InOutKeep =
      some { m_handle := some { data := d, pos := 0, writable := true, eofInd := false,
                                errInd := false },
             m_statusBits := 0, m_canRead := true, m_canWrite := true,
             calls := (close s).calls ++ [OSCall.fopen fullpath "r+b"] } := by
  obtain ⟨-, -, hcb, -⟩ := close_caps s
  simp [open_, setCaps, modeStr, stdio, stdio_fopen, hfile, fstream.log, hcb]

theorem toPtrdiff_small (n : Nat) (hn : n < 2 ^ 63) : toPtrdiff n = (n : Int) := by
  unfold toPtrdiff SIZE_BITS
  have h1 : n % 2 ^ 64 = n := Nat.mod_eq_of_lt (by omega)
  have h2 : n < 2 ^ (64 - 1) := hn
  rw [h1, if_pos h2]

theorem seek_eof_clean (os : OS H) (s : fstream H) (h h' : H) (dir : Int)
    (whence : Whence) (S p : Nat)
    (hh : s.m_handle = some h) (hb : s.m_statusBits = eof)
    (he : os.ferror h = 0) (hS : os.ftell h = (S : Int)) (hSl : S < 2 ^ 63)
    (hseek : os.fseek h dir (fileWhence whence) = (0, h'))
    (he' : os.ferror h' = 0) (hp : os.ftell h' = (p : Int)) (hpl : p < 2 ^ 63) :
    ∃ s', seek os s dir whence = some s' ∧ s'.m_handle = some h' ∧
      (p < S → s'.m_statusBits = 0) ∧ (S ≤ p → s'.m_statusBits = eof) := by
  have hh1 : (s.log OSCall.ferror).m_handle = some h := by simp [fstream.log, hh]
  have hb1 : (s.log OSCall.ferror).m_statusBits = eof := by simp [fstream.log, hb]
  have heof : is_eof (s.log OSCall.ferror) = true := by
    simp [is_eof, hb1]; decide
  have ht1 := tell_clean os (s.log OSCall.ferror) h S hh1 he (Or.inr hb1) hS hSl
  have hg2 := good_clean os (((s.log OSCall.ferror).log OSCall.ferror).log OSCall.ftell) h
    (by simp [fstream.log, hh]) he (Or.inr (by simp [fstream.log, hb]))
  unfold seek
  simp only [good_clean os s h hh he (Or.inr hb), Bool.not_true, Bool.false_eq_true, if_false,
    heof, if_true, ht1, hg2]
  exact seekRaw_eof os _ h h' S dir whence p (by simp [fstream.log, hh])
    (by simp [fstream.log, hb]) hseek he' hp hpl

theorem stdio_seek_healthy (fs : String → Option (List Nat)) (s : fstream File) (f : File)
    (dir : Int) (whence : Whence) (hh : s.m_handle = some f) (he : f.errInd = false)
    (hb : s.m_statusBits = 0 ∨ s.m_statusBits = eof) (hp : f.pos < 2 ^ 63)
    (ht0 : 0 ≤ seekTarget f dir whence) (ht1 : seekTarget f dir whence < 2 ^ 63) :
    ∃ s', seek (stdio fs) s dir whence = some s' ∧
      s'.m_handle = some { f with pos := (seekTarget f dir whence).toNat, eofInd := false } ∧
      (s'.m_statusBits = 0 ∨ s'.m_statusBits = eof) := by
  rcases hb with hb | hb
  · obtain ⟨s', h1, h2, h3, -, -⟩ := stdio_seek_clear fs s f dir whence hh he hb ht0
    exact ⟨s', h1, h2, Or.inl h3⟩
  · have hpl : (seekTarget f dir whence).toNat < 2 ^ 63 := by omega
    have hp2 : f.pos < 2 ^ (SIZE_BITS - 1) := hp
    have hpl2 : (seekTarget f dir whence).toNat < 2 ^ (SIZE_BITS - 1) := hpl
    obtain ⟨s', h1, h2, h3, h4⟩ := seek_eof_clean (stdio fs) s f
      { f with pos := (seekTarget f dir whence).toNat, eofInd := false } dir whence f.pos
      (seekTarget f dir whence).toNat hh hb (by simp [stdio, he])
      (by simp [stdio, stdio_ftell, hp2]) hp
      (stdio_fseek_ok f dir whence ht0) (by simp [stdio, he])
      (by simp [stdio, stdio_ftell, hpl2]) hpl
    refine ⟨s', h1, h2, ?_⟩
    by_cases hlt : (seekTarget f dir whence).toNat < f.pos
    · exact Or.inl (h3 hlt)
    · exact Or.inr (h4 (by omega))

theorem stdio_write_seek_read (fs : String → Option (List Nat)) (s : fstream File)
    (f : File) (data buffer : List Nat)
    (hh : s.m_handle = some f) (hr : s.m_canRead = true) (hw : s.m_canWrite = true)
    (hb : s.m_statusBits = 0) (he : f.errInd = false) (hfw : f.writable = true)
    (hp : f.pos = 0) (hbuf : buffer.length = data.length) :
    ∃ s1 s2 s3,
      write (stdio fs) s data data.length = some (data.length, s1) ∧ s1.m_statusBits = 0 ∧
      seek (stdio fs) s1 0 Whence.beg = some s2 ∧ s2.m_statusBits = 0 ∧
      read (stdio fs) s2 buffer data.length = some ((data.length, data), s3) ∧
      s3.m_statusBits = 0 := by
  obtain ⟨f1, hf1, he1, hd1, hl1⟩ := stdio_fwrite_at_start f data hfw hp
  have hfw1 : (stdio fs).fwrite f data data.length = (data.length, f1) := hf1
  -- write
  have hwrite : write (stdio fs) s data data.length =
      some (data.length,
        { s.log (OSCall.fwrite data data.length) with m_handle := some f1 }) := by
    simp [write, hw, hh, hfw1]
  -- seek
  obtain ⟨s2, hs2, hh2, hb2, hr2, -⟩ := stdio_seek_clear fs
    { s.log (OSCall.fwrite data data.length) with m_handle := some f1 } f1 0 Whence.beg rfl
    (by rw [he1, he]) (by simp [fstream.log, hb]) (by simp [seekTarget])
  have hpos : (seekTarget f1 0 Whence.beg).toNat = 0 := by simp [seekTarget]
  rw [hpos] at hh2
  have hr2' : s2.m_canRead = true := by rw [hr2]; simpa [fstream.log] using hr
  -- read
  have hfr : (stdio fs).fread { f1 with pos := 0, eofInd := false } data.length =
      (data, { f1 with pos := data.length,
                       eofInd := false || decide (data.length < data.length) }) := by
    simp [stdio, stdio_fread, hd1, hl1]
  have hread : read (stdio fs) s2 buffer data.length =
      some ((data.length, data),
        { s2.log (OSCall.fread data.length) with
          m_handle := some { f1 with pos := data.length,
                                     eofInd := false || decide (data.length < data.length) } }) := by
    have hdrop : buffer.drop data.length = [] := by rw [← hbuf]; exact List.drop_length buffer
    unfold read
    simp only [hr2', if_true, hh2, hfr]
    simp [hdrop]
  exact ⟨_, s2, _, hwrite, by simp [fstream.log, hb], hs2, hb2, hread,
    by simp [fstream.log, hb2]⟩

/-! ### The container -/

theorem eraseLoop_spec {T : Type} (fuel : Nat) :
    ∀ (m_data : Nat → T) (itor endt : Nat), itor + 1 ≤ endt → endt - itor ≤ fuel →
      static_vector.eraseLoop fuel m_data itor endt =
        some (fun j => if itor ≤ j ∧ j + 1 < endt then m_data (j + 1) else m_data j) := by
  induction fuel with
  | zero => intro m_data itor endt h1 h2; omega
  | succ fuel ih =>
    intro m_data itor endt h1 h2
    unfold static_vector.eraseLoop
    by_cases hne : itor + 1 ≠ endt
    · rw [if_pos hne, ih _ (itor + 1) endt (by omega) (by omega)]
      congr 1
      funext j
      by_cases hj : j = itor
      · subst hj
        have c1 : ¬ (j + 1 ≤ j ∧ j + 1 < endt) := by omega
        have c2 : j ≤ j ∧ j + 1 < endt := by omega
        rw [if_neg c1, if_pos c2, Function.update_same]
      · by_cases hc : itor + 1 ≤ j ∧ j + 1 < endt
        · have c2 : itor ≤ j ∧ j + 1 < endt := by omega
          rw [if_pos hc, if_pos c2, Function.update_noteq (by omega)]
        · have c2 : ¬ (itor ≤ j ∧ j + 1 < endt) := by omega
          rw [if_neg hc, if_neg c2, Function.update_noteq hj]
    · rw [if_neg hne]
      congr 1
      funext j
      have c2 : ¬ (itor ≤ j ∧ j + 1 < endt) := by omega
      rw [if_neg c2]

theorem erase_valid {T : Type} {N : Nat} (v : static_vector T N) (i : Nat)
    (hi : i < v.m_size) :
    v.erase i = some (i, { m_data := fun j => if i ≤ j ∧ j + 1 < v.m_size then v.m_data (j + 1)
                                              else v.m_data j,
                           m_size := v.m_size - 1 }) := by
  unfold static_vector.erase static_vector.end_
  have h1 : ¬ i = v.m_size := by omega
  have h2 : ¬ ¬ (v.m_size > 0 ∧ i ≥ 0 ∧ i ≤ v.m_size) := by
    intro h; apply h; omega
  rw [if_neg h1, if_neg h2, eraseLoop_spec v.m_size v.m_data i v.m_size (by omega) (by omega)]

theorem step_size_le {T : Type} {N : Nat} (v v1 : static_vector T N) (op : VecOp T)
    (hv : v.m_size ≤ N) (hs : v.step op = some v1) : v1.m_size ≤ N := by
  cases op with
  | push value =>
    simp only [static_vector.step, Option.some.injEq] at hs
    rw [← hs]
    unfold static_vector.push_back
    split_ifs
    · simp only; omega
    · exact hv
  | pop =>
    simp only [static_vector.step, Option.some.injEq] at hs
    rw [← hs]
    unfold static_vector.pop_back
    split_ifs
    · simp only; omega
    · exact hv
  | erase toErase =>
    simp only [static_vector.step] at hs
    by_cases he : toErase = v.m_size
    · simp [static_vector.erase, static_vector.end_, he] at hs
      rw [← hs]; exact hv
    · by_cases hlt : toErase < v.m_size
      · rw [erase_valid v toErase hlt] at hs
        simp only [Option.map_some', Option.some.injEq] at hs
        rw [← hs]
        simp only; omega
      · have hbad : ¬ (v.m_size > 0 ∧ toErase ≥ 0 ∧ toErase ≤ v.m_size) := by omega
        simp only [static_vector.erase, static_vector.end_, if_neg he, if_pos hbad,
          Option.map_none'] at hs
        exact absurd hs (by simp)

theorem run_size_le {T : Type} {N : Nat} (ops : List (VecOp T)) :
    ∀ (v v1 : static_vector T N), v.m_size ≤ N → v.run ops = some v1 → v1.m_size ≤ N := by
  induction ops with
  | nil =>
    intro v v1 hv hr
    simp only [static_vector.run, Option.some.injEq] at hr
    rw [← hr]; exact hv
  | cons op ops ih =>
    intro v v1 hv hr
    unfold static_vector.run at hr
    cases hs : v.step op with
    | none => simp [hs] at hr
    | some v2 =>
      simp only [hs] at hr
      exact ih v2 v1 (step_size_le v v2 op hv hs) hr

theorem toList_getElem? {T : Type} {N : Nat} (v : static_vector T N) (j : Nat) :
    v.toList[j]? = if j < v.m_size then some (v.m_data j) else none := by
  unfold static_vector.toList
  rw [List.getElem?_map]
  by_cases hj : j < v.m_size
  · rw [List.getElem?_range hj, if_pos hj]; rfl
  · rw [if_neg hj, List.getElem?_eq_none (by simpa using hj)]; rfl

theorem toList_push_back {T : Type} {N : Nat} (v : static_vector T N) (value : T)
    (hlt : v.m_size < N) : (v.push_back value).toList = v.toList ++ [value] := by
  unfold static_vector.push_back
  rw [if_pos hlt]
  unfold static_vector.toList
  simp only [List.range_succ, List.map_append, List.map_cons, List.map_nil,
    Function.update_same]
  congr 1
  apply List.map_congr_left
  intro i hi
  have hne : i ≠ v.m_size := by
    have := List.mem_range.mp hi
    omega
  exact Function.update_noteq hne _ _

theorem toList_erase {T : Type} {N : Nat} (v : static_vector T N) (i : Nat)
    (hi : i < v.m_size) :
    (static_vector.toList ({ m_data := fun j => if i ≤ j ∧ j + 1 < v.m_size then v.m_data (j + 1)
                                              else v.m_data j,
                             m_size := v.m_size - 1 } : static_vector T N)) =
      v.toList.eraseIdx i := by
  apply List.ext_getElem?
  intro j
  rw [toList_getElem?, List.getElem?_eraseIdx, toList_getElem?, toList_getElem?]
  simp only
  by_cases hji : j < i
  · have c1 : j < v.m_size - 1 := by omega
    have c2 : ¬ (i ≤ j ∧ j + 1 < v.m_size) := by omega
    have c3 : j < v.m_size := by omega
    rw [if_pos c1, if_neg c2, if_pos hji, if_pos c3]
  · by_cases hjn : j + 1 < v.m_size
    · have c1 : j < v.m_size - 1 := by omega
      have c2 : i ≤ j ∧ j + 1 < v.m_size := by omega
      rw [if_pos c1, if_pos c2, if_neg hji, if_pos hjn]
    · have c1 : ¬ j < v.m_size - 1 := by omega
      rw [if_neg c1, if_neg hji, if_neg hjn]

theorem or_badbit_ne (x : Nat) : x ||| badbit ≠ 0 ∧ x ||| badbit ≠ eof := by
  have h : (x ||| badbit).testBit 0 = true := by
    rw [Nat.testBit_or]
    have : badbit.testBit 0 = true := by decide
    rw [this, Bool.or_true]
  constructor
  · intro h0
    rw [h0] at h
    exact absurd h (by decide)
  · intro h0
    rw [h0] at h
    exact absurd h (by decide)

theorem good_true_register (os : OS H) (s : fstream H) (hg : (good os s).1 = true) :
    (good os s).2.m_statusBits = s.m_statusBits := by
  unfold good at hg ⊢
  cases hh : s.m_handle with
  | none => rfl
  | some h =>
    simp only [hh] at hg ⊢
    by_cases hc : s.m_statusBits &&& (badbit ||| failbit) = 0
    · by_cases he : os.ferror h ≠ 0
      · rw [if_pos hc, if_pos he] at hg
        have hne := or_badbit_ne s.m_statusBits
        simp [fstream.orBits, fstream.log, hne.1, hne.2] at hg
      · rw [if_pos hc, if_neg he]
        rfl
    · rw [if_neg hc]

theorem hasBit_or (a b i : Nat) : hasBit (a ||| b) (2 ^ i) = (hasBit a (2 ^ i) || hasBit b (2 ^ i)) := by
  rw [hasBit_two_pow, hasBit_two_pow, hasBit_two_pow, Nat.testBit_or]

end Facts










/-! ## Claims -/

section Claims

variable {H : Type}

/-- C1: on an open stream with a register made of the three status bits,
`good()` returns true iff neither `bad` nor `fail` is set in the register and
the OS error indicator of the handle is clear; when the register is exactly
`{eof}` and the indicator is clear it returns true and leaves the register
unchanged. -/
theorem C1_good_iff_no_bad_fail (os : OS H) (s : fstream H) (h : H)
    (hopen : s.m_handle = some h) (hreg : validRegister s.m_statusBits) :
    ((good os s).1 = true ↔
      (hasBit s.m_statusBits badbit = false ∧ hasBit s.m_statusBits failbit = false ∧
        os.ferror h = 0)) ∧
    (s.m_statusBits = eof → os.ferror h = 0 →
      (good os s).1 = true ∧ (good os s).2.m_statusBits = eof) := by
  obtain ⟨hd, bits, cr, cw, calls⟩ := s
  simp only at hopen hreg
  subst hopen
  have hb : bits ≤ 7 := hreg
  have e3 : (4 &&& 3 : Nat) = 0 := by decide
  have e2 : (4 &&& 2 : Nat) = 0 := by decide
  have e1 : (4 &&& 1 : Nat) = 0 := by decide
  by_cases he : os.ferror h = 0
  · interval_cases bits <;>
      simp [good, he, hasBit, badbit, failbit, eof, fstream.log, fstream.orBits, e1, e2, e3]
  · interval_cases bits <;>
      simp [good, he, hasBit, badbit, failbit, eof, fstream.log, fstream.orBits, e1, e2, e3]

/-- Witness of C1: a stream at the end of a three-byte file, register `{eof}`. -/
theorem C1_good_iff_no_bad_fail_witness :
    (streamAtEof.m_handle = some fileAtEnd ∧ validRegister streamAtEof.m_statusBits) ∧
    (((good (stdio noFiles) streamAtEof).1 = true ↔
      (hasBit streamAtEof.m_statusBits badbit = false ∧
        hasBit streamAtEof.m_statusBits failbit = false ∧
        (stdio noFiles).ferror fileAtEnd = 0)) ∧
    (streamAtEof.m_statusBits = eof → (stdio noFiles).ferror fileAtEnd = 0 →
      (good (stdio noFiles) streamAtEof).1 = true ∧
        (good (stdio noFiles) streamAtEof).2.m_statusBits = eof)) :=
  ⟨⟨rfl, by decide⟩,
    C1_good_iff_no_bad_fail (stdio noFiles) streamAtEof fileAtEnd rfl (by decide)⟩

/-- C2 as stated fails: a default-constructed stream holds no handle, so
`good()` returns false although the register after the call is empty and
neither `bad` nor `fail` is set. -/
theorem C2_counterexample :
    (good (stdio noFiles) (fstream.mk0 : fstream File)).1 = false ∧
    (good (stdio noFiles) (fstream.mk0 : fstream File)).2.m_statusBits = 0 ∧
    hasBit (good (stdio noFiles) (fstream.mk0 : fstream File)).2.m_statusBits badbit = false ∧
    hasBit (good (stdio noFiles) (fstream.mk0 : fstream File)).2.m_statusBits failbit = false ∧
    ¬ ((good (stdio noFiles) (fstream.mk0 : fstream File)).1 = true ↔
        ((good (stdio noFiles) (fstream.mk0 : fstream File)).2.m_statusBits = 0 ∨
         (good (stdio noFiles) (fstream.mk0 : fstream File)).2.m_statusBits = eof)) := by
  simp [good, fstream.mk0, hasBit]

/-- C2 (amended): `good()` returns true exactly when a handle is held and the
register after the call is empty or exactly `{eof}`; without a handle it
returns false and changes nothing; and when it returns false on an open stream
whose register is made of the three status bits, `bad` or `fail` is set after
the call. -/
theorem C2_good_iff_open_and_register (os : OS H) (s : fstream H) :
    ((good os s).1 = true ↔
      (is_open s = true ∧
        ((good os s).2.m_statusBits = 0 ∨ (good os s).2.m_statusBits = eof))) ∧
    (is_open s = false → good os s = (false, s)) ∧
    (is_open s = true → validRegister s.m_statusBits → (good os s).1 = false →
      (hasBit (good os s).2.m_statusBits badbit = true ∨
        hasBit (good os s).2.m_statusBits failbit = true)) := by
  obtain ⟨hd, bits, cr, cw, calls⟩ := s
  cases hd with
  | none => simp [good, is_open]
  | some h =>
    refine ⟨by simp [good, is_open], by simp [is_open], ?_⟩
    intro _ hreg
    have hb : bits ≤ 7 := hreg
    have e3 : (4 &&& 3 : Nat) = 0 := by decide
    have e2 : (4 &&& 2 : Nat) = 0 := by decide
    have e1 : (4 &&& 1 : Nat) = 0 := by decide
    by_cases he : os.ferror h = 0
    · interval_cases bits <;>
        simp [good, he, hasBit, badbit, failbit, eof, fstream.log, fstream.orBits, e1, e2, e3]
    · interval_cases bits <;>
        simp [good, he, hasBit, badbit, failbit, eof, fstream.log, fstream.orBits, e1, e2, e3]

/-- Witness of C2 (amended): an open stream whose `fail` bit is set. -/
theorem C2_good_iff_open_and_register_witness :
    (is_open streamFailed = true ∧ validRegister streamFailed.m_statusBits ∧
      (good (stdio noFiles) streamFailed).1 = false) ∧
    (hasBit (good (stdio noFiles) streamFailed).2.m_statusBits badbit = true ∨
        hasBit (good (stdio noFiles) streamFailed).2.m_statusBits failbit = true) :=
  ⟨⟨rfl, by decide, by decide⟩,
    (C2_good_iff_open_and_register (stdio noFiles) streamFailed).2.2 rfl (by decide)
      (by decide)⟩

/-- C3 fails on the code: after `open` of a missing file with mode `Input` the
stream is not open but `m_canRead` is true and the register is empty, so
`read` hands the null handle to `fread` (the embedding's `none`) instead of
setting `fail` and returning the sentinel. -/
theorem C3_read_after_failed_open_faults :
    (failedOpen.map is_open = some false) ∧
    (failedOpen.map (fun s => s.m_canRead) = some true) ∧
    (failedOpen.map (fun s => s.m_statusBits) = some 0) ∧
    (failedOpen.bind (fun s => read (stdio noFiles) s [0] 1) = none) := by
  simp [failedOpen, open_, close, setCaps, fstream.mk0, fstream.log, stdio, stdio_fopen,
    noFiles, modeStr, is_open, read]

/-- C4: on every stream for which `good()` is false, `seek` only sets `fail`,
`tell` and `getFileSize` set `fail` and return the sentinel; the handle is left
as it was and the only OS primitive possibly invoked is the `ferror` of
`good()` (no `fseek`, no `ftell`). -/
theorem C4_not_good_fails_fast (os : OS H) (s : fstream H) (dir : Int) (whence : Whence)
    (bRestoreOffset : Bool) (hg : (good os s).1 = false) :
    seek os s dir whence = some ((good os s).2.orBits failbit) ∧
    tell os s = some (SIZE_MAX, (good os s).2.orBits failbit) ∧
    getFileSize os s bRestoreOffset = some (SIZE_MAX, (good os s).2.orBits failbit) ∧
    hasBit ((good os s).2.orBits failbit).m_statusBits failbit = true ∧
    ((good os s).2.orBits failbit).m_handle = s.m_handle ∧
    (((good os s).2.orBits failbit).calls = s.calls ∨
      ((good os s).2.orBits failbit).calls = s.calls ++ [OSCall.ferror]) := by
  refine ⟨by simp [seek, hg], by simp [tell, hg], by simp [getFileSize, hg], ?_, ?_, ?_⟩
  · exact hasBit_or_self _ _ (by decide)
  · exact good_handle os s
  · exact good_calls os s

/-- Witness of C4: an open stream whose `fail` bit is set. -/
theorem C4_not_good_fails_fast_witness :
    (good (stdio noFiles) streamFailed).1 = false ∧
    seek (stdio noFiles) streamFailed 0 Whence.beg =
      some ((good (stdio noFiles) streamFailed).2.orBits failbit) ∧
    tell (stdio noFiles) streamFailed =
      some (SIZE_MAX, (good (stdio noFiles) streamFailed).2.orBits failbit) :=
  ⟨by decide,
    (C4_not_good_fails_fast (stdio noFiles) streamFailed 0 Whence.beg true (by decide)).1,
    (C4_not_good_fails_fast (stdio noFiles) streamFailed 0 Whence.beg true (by decide)).2.1⟩

/-- C5: when `m_canRead` is false, `read` returns the sentinel (the maximum
`size_t`), sets `fail` and changes nothing else: output buffer, handle, log of
OS calls, capabilities and the `bad` and `eof` bits are as before; and a stream
opened with a write-only mode is such a stream. -/
theorem C5_read_without_canRead (os : OS H) (s : fstream H) (outData : List Nat)
    (sizeBytes : Nat) (hr : s.m_canRead = false) :
    read os s outData sizeBytes = some ((SIZE_MAX, outData), s.orBits failbit) ∧
    SIZE_MAX = 2 ^ 64 - 1 ∧
    hasBit (s.orBits failbit).m_statusBits failbit = true ∧
    hasBit (s.orBits failbit).m_statusBits badbit = hasBit s.m_statusBits badbit ∧
    hasBit (s.orBits failbit).m_statusBits eof = hasBit s.m_statusBits eof ∧
    (s.orBits failbit).m_handle = s.m_handle ∧
    (s.orBits failbit).calls = s.calls ∧
    (s.orBits failbit).m_canRead = s.m_canRead ∧
    (s.orBits failbit).m_canWrite = s.m_canWrite ∧
    (∀ (s0 : fstream H) (fullpath : String) (mode : FileOpenMode),
      (mode = FileOpenMode.OutputDiscard ∨ mode = FileOpenMode.OutputKeep ∨
        mode = FileOpenMode.OutputKeepEnd) →
      ∃ s1, open_ os s0 fullpath mode = some s1 ∧
        read os s1 outData sizeBytes = some ((SIZE_MAX, outData), s1.orBits failbit)) := by
  refine ⟨by simp [read, hr], rfl, hasBit_or_self _ _ (by decide),
    hasBit_or_disjoint _ _ _ (by decide), hasBit_or_disjoint _ _ _ (by decide),
    rfl, rfl, rfl, rfl, ?_⟩
  intro s0 fullpath mode hm
  obtain ⟨s1, extra, ho, hcaps, -, -, -⟩ := open_spec os s0 fullpath mode
  have hr1 : s1.m_canRead = false := by
    rcases hm with hm | hm | hm <;> subst hm <;> simpa [specCaps] using (congrArg Prod.fst hcaps)
  exact ⟨s1, ho, by simp [read, hr1]⟩

/-- Witness of C5: a default-constructed stream cannot read. -/
theorem C5_read_without_canRead_witness :
    (fstream.mk0 : fstream File).m_canRead = false ∧
    read (stdio noFiles) (fstream.mk0 : fstream File) [7, 7] 2 =
      some ((SIZE_MAX, [7, 7]), (fstream.mk0 : fstream File).orBits failbit) :=
  ⟨rfl, (C5_read_without_canRead (stdio noFiles) fstream.mk0 [7, 7] 2 rfl).1⟩

/-- C6: when `m_canWrite` is false, `write` sets `fail` and returns the
sentinel, `flush` sets `fail` and returns -1, `fsync` sets `fail`; the stream
afterwards differs from the one before in the register only, so the handle
(file contents and offset) is untouched and no OS primitive was invoked; and a
stream opened with a read-only mode is such a stream. -/
theorem C6_write_flush_fsync_without_canWrite (os : OS H) (pf : Platform) (s : fstream H)
    (inData : List Nat) (sizeBytes : Nat) (preferDataSync : Bool)
    (hw : s.m_canWrite = false) :
    write os s inData sizeBytes = some (SIZE_MAX, s.orBits failbit) ∧
    flush os s = some (-1, s.orBits failbit) ∧
    fsync os pf s preferDataSync = some (s.orBits failbit) ∧
    hasBit (s.orBits failbit).m_statusBits failbit = true ∧
    (s.orBits failbit).m_handle = s.m_handle ∧
    (s.orBits failbit).calls = s.calls ∧
    (∀ (s0 : fstream H) (fullpath : String) (mode : FileOpenMode),
      (mode = FileOpenMode.Input ∨ mode = FileOpenMode.InputEnd) →
      ∃ s1, open_ os s0 fullpath mode = some s1 ∧ s1.m_canWrite = false) := by
  refine ⟨by simp [write, hw], by simp [flush, hw], by simp [fsync, hw],
    hasBit_or_self _ _ (by decide), rfl, rfl, ?_⟩
  intro s0 fullpath mode hm
  obtain ⟨s1, extra, ho, hcaps, -, -, -⟩ := open_spec os s0 fullpath mode
  refine ⟨s1, ho, ?_⟩
  rcases hm with hm | hm <;> subst hm <;> simpa [specCaps] using (congrArg Prod.snd hcaps)

/-- Witness of C6: the read-only stream at the end of a three-byte file. -/
theorem C6_write_flush_fsync_without_canWrite_witness :
    streamAtEof.m_canWrite = false ∧
    write (stdio noFiles) streamAtEof [1] 1 = some (SIZE_MAX, streamAtEof.orBits failbit) ∧
    flush (stdio noFiles) streamAtEof = some (-1, streamAtEof.orBits failbit) ∧
    fsync (stdio noFiles) Platform.posix streamAtEof true = some (streamAtEof.orBits failbit) :=
  ⟨rfl,
    (C6_write_flush_fsync_without_canWrite (stdio noFiles) Platform.posix streamAtEof [1] 1
      true rfl).1,
    (C6_write_flush_fsync_without_canWrite (stdio noFiles) Platform.posix streamAtEof [1] 1
      true rfl).2.1,
    (C6_write_flush_fsync_without_canWrite (stdio noFiles) Platform.posix streamAtEof [1] 1
      true rfl).2.2.1⟩

/-- C7: `open` never faults; whatever the stream held before, afterwards
`(m_canRead, m_canWrite)` is the pair of the spec's table, and the one `fopen`
it issues (after the calls of `close`, followed by positioning calls only)
carries a mode string that truncates or creates exactly for `OutputDiscard`. -/
theorem C7_open_capabilities_and_mode (os : OS H) (s : fstream H) (fullpath : String)
    (mode : FileOpenMode) :
    ∃ s' extra, open_ os s fullpath mode = some s' ∧
      (s'.m_canRead, s'.m_canWrite) = specCaps mode ∧
      s'.calls = (close s).calls ++ OSCall.fopen fullpath (modeStr mode) :: extra ∧
      (∀ c ∈ extra, positioningCall c) ∧
      (truncatesOrCreates (modeStr mode) = true ↔ mode = FileOpenMode.OutputDiscard) := by
  obtain ⟨s', extra, ho, hcaps, -, hcalls, hextra⟩ := open_spec os s fullpath mode
  refine ⟨s', extra, ho, hcaps, hcalls, hextra, ?_⟩
  cases mode <;> decide

/-- C8: over the reference stdio, opening an existing file (of a size that
fits a `long`) with a from-end mode succeeds with an empty register; `tell()`
right after returns the file's size, and so does `getFileSize( false )`, called
after that `tell()` or in its place; the register stays empty. -/
theorem C8_open_from_end_tell_is_size (fs : String → Option (List Nat)) (s : fstream File)
    (fullpath : String) (mode : FileOpenMode) (d : List Nat)
    (hfile : fs fullpath = some d) (hmode : fromEnd mode = true) (hsize : d.length < 2 ^ 63) :
    ∃ s1 s2 s3 s4, open_ (stdio fs) s fullpath mode = some s1 ∧
      is_open s1 = true ∧ s1.m_statusBits = 0 ∧
      tell (stdio fs) s1 = some (d.length, s2) ∧ s2.m_statusBits = 0 ∧
      getFileSize (stdio fs) s2 false = some (d.length, s3) ∧ s3.m_statusBits = 0 ∧
      getFileSize (stdio fs) s1 false = some (d.length, s4) ∧ s4.m_statusBits = 0 := by
  obtain ⟨hcr, hcw, hcb, -⟩ := close_caps s
  obtain ⟨-, -, hsb⟩ := setCaps_spec (close s) mode hcr hcw
  -- the handle `fopen` returns
  obtain ⟨f0, hopen, hdata, hpos, herr⟩ : ∃ f0 : File,
      (stdio fs).fopen fullpath (modeStr mode) = some f0 ∧ f0.data = d ∧ f0.pos = 0 ∧
        f0.errInd = false := by
    cases mode <;> simp [fromEnd] at hmode <;>
      simp [stdio, stdio_fopen, modeStr, hfile]
  have ht : 0 ≤ seekTarget f0 0 Whence.end_ := by simp [seekTarget]
  have hpos1 : (seekTarget f0 0 Whence.end_).toNat = d.length := by simp [seekTarget, hdata]
  obtain ⟨s1, hs1, hh1, hb1, -, -⟩ := stdio_seek_clear fs
    { (setCaps (close s) mode).log (OSCall.fopen fullpath (modeStr mode)) with
      m_handle := some f0 } f0 0 Whence.end_ rfl herr
    (by simp [fstream.log, hsb, hcb]) ht
  rw [hpos1] at hh1
  have hsz : ({ f0 with pos := d.length, eofInd := false } : File).data.length < 2 ^ 63 := by
    simpa [hdata] using hsize
  have htell := stdio_tell fs s1 _ hh1 herr (Or.inl hb1) hsize
  have hh2 : ((s1.log OSCall.ferror).log OSCall.ftell).m_handle =
      some { f0 with pos := d.length, eofInd := false } := by simp [fstream.log, hh1]
  have hb2 : ((s1.log OSCall.ferror).log OSCall.ftell).m_statusBits = 0 := by
    simp [fstream.log, hb1]
  obtain ⟨s3, hs3, -, hb3⟩ := stdio_getFileSize_noRestore fs _ _ hh2 herr hb2 hsz
  obtain ⟨s4, hs4, -, hb4⟩ := stdio_getFileSize_noRestore fs s1 _ hh1 herr hb1 hsz
  simp only [hdata] at hs3 hs4
  refine ⟨s1, _, s3, s4, ?_, ?_, hb1, htell, hb2, hs3, hb3, hs4, hb4⟩
  · unfold open_
    have hfe : (mode == FileOpenMode.InputEnd || mode == FileOpenMode.InOutEnd ||
        mode == FileOpenMode.OutputKeepEnd) = true := hmode
    simp only [hopen, Option.isSome_some, Bool.true_and, hfe, if_true]
    exact hs1
  · simp [is_open, hh1]

/-- Witness of C8: the three-byte file `a.bin` opened with `InputEnd`. -/
theorem C8_open_from_end_tell_is_size_witness :
    (oneFile "a.bin" [10, 20, 30] "a.bin" = some [10, 20, 30] ∧
      fromEnd FileOpenMode.InputEnd = true ∧ [10, 20, 30].length < 2 ^ 63) ∧
    ∃ s1 s2 s3 s4,
      open_ (stdio (oneFile "a.bin" [10, 20, 30])) fstream.mk0 "a.bin" FileOpenMode.InputEnd =
        some s1 ∧
      is_open s1 = true ∧ s1.m_statusBits = 0 ∧
      tell (stdio (oneFile "a.bin" [10, 20, 30])) s1 = some ([10, 20, 30].length, s2) ∧
      s2.m_statusBits = 0 ∧
      getFileSize (stdio (oneFile "a.bin" [10, 20, 30])) s2 false =
        some ([10, 20, 30].length, s3) ∧
      s3.m_statusBits = 0 ∧
      getFileSize (stdio (oneFile "a.bin" [10, 20, 30])) s1 false =
        some ([10, 20, 30].length, s4) ∧
      s4.m_statusBits = 0 :=
  ⟨⟨by decide, by decide, by decide⟩,
    C8_open_from_end_tell_is_size (oneFile "a.bin" [10, 20, 30]) fstream.mk0 "a.bin"
      FileOpenMode.InputEnd [10, 20, 30] (by decide) (by decide) (by decide)⟩

/-- C9: over the reference stdio, on a healthy stream that may read and write,
is opened for update and stands at offset 0, `write( data, N )` with
`N = data.length` (0 included) returns `N`; after `seek( 0, beg )`,
`read( buffer, N )` into a buffer of `N` bytes returns `N` and the buffer holds
exactly `data`; the register is empty after each of the three calls. -/
theorem C9_write_seek_read_roundtrip (fs : String → Option (List Nat)) (s : fstream File)
    (f : File) (data buffer : List Nat)
    (hh : s.m_handle = some f) (hr : s.m_canRead = true) (hw : s.m_canWrite = true)
    (hb : s.m_statusBits = 0) (he : f.errInd = false) (hfw : f.writable = true)
    (hp : f.pos = 0) (hbuf : buffer.length = data.length) :
    ∃ s1 s2 s3,
      write (stdio fs) s data data.length = some (data.length, s1) ∧ s1.m_statusBits = 0 ∧
      seek (stdio fs) s1 0 Whence.beg = some s2 ∧ s2.m_statusBits = 0 ∧
      read (stdio fs) s2 buffer data.length = some ((data.length, data), s3) ∧
      s3.m_statusBits = 0 := by
  obtain ⟨f1, hf1, he1, hd1, hl1⟩ := stdio_fwrite_at_start f data hfw hp
  have hfw1 : (stdio fs).fwrite f data data.length = (data.length, f1) := hf1
  -- write
  have hwrite : write (stdio fs) s data data.length =
      some (data.length,
        { s.log (OSCall.fwrite data data.length) with m_handle := some f1 }) := by
    simp [write, hw, hh, hfw1]
  -- seek
  obtain ⟨s2, hs2, hh2, hb2, hr2, -⟩ := stdio_seek_clear fs
    { s.log (OSCall.fwrite data data.length) with m_handle := some f1 } f1 0 Whence.beg rfl
    (by rw [he1, he]) (by simp [fstream.log, hb]) (by simp [seekTarget])
  have hpos : (seekTarget f1 0 Whence.beg).toNat = 0 := by simp [seekTarget]
  rw [hpos] at hh2
  have hr2' : s2.m_canRead = true := by rw [hr2]; simpa [fstream.log] using hr
  -- read
  have hfr : (stdio fs).fread { f1 with pos := 0, eofInd := false } data.length =
      (data, { f1 with pos := data.length,
                       eofInd := false || decide (data.length < data.length) }) := by
    simp [stdio, stdio_fread, hd1, hl1]
  have hread : read (stdio fs) s2 buffer data.length =
      some ((data.length, data),
        { s2.log (OSCall.fread data.length) with
          m_handle := some { f1 with pos := data.length,
                                     eofInd := false || decide (data.length < data.length) } }) := by
    have hdrop : buffer.drop data.length = [] := by rw [← hbuf]; exact List.drop_length buffer
    unfold read
    simp only [hr2', if_true, hh2, hfr]
    simp [hdrop]
  exact ⟨_, s2, _, hwrite, by simp [fstream.log, hb], hs2, hb2, hread,
    by simp [fstream.log, hb2]⟩

/-- Witness of C9: four bytes written over a five-byte file and read back. -/
theorem C9_write_seek_read_roundtrip_witness :
    (streamReadWrite.m_handle = some fileForUpdate ∧ streamReadWrite.m_canRead = true ∧
      streamReadWrite.m_canWrite = true ∧ streamReadWrite.m_statusBits = 0 ∧
      fileForUpdate.errInd = false ∧ fileForUpdate.writable = true ∧ fileForUpdate.pos = 0 ∧
      [0, 0, 0, 0].length = [1, 2, 3, 4].length) ∧
    ∃ s1 s2 s3,
      write (stdio noFiles) streamReadWrite [1, 2, 3, 4] [1, 2, 3, 4].length =
        some ([1, 2, 3, 4].length, s1) ∧ s1.m_statusBits = 0 ∧
      seek (stdio noFiles) s1 0 Whence.beg = some s2 ∧ s2.m_statusBits = 0 ∧
      read (stdio noFiles) s2 [0, 0, 0, 0] [1, 2, 3, 4].length =
        some (([1, 2, 3, 4].length, [1, 2, 3, 4]), s3) ∧
      s3.m_statusBits = 0 :=
  ⟨⟨rfl, rfl, rfl, rfl, rfl, rfl, rfl, rfl⟩,
    C9_write_seek_read_roundtrip noFiles streamReadWrite fileForUpdate [1, 2, 3, 4]
      [0, 0, 0, 0] rfl rfl rfl rfl rfl rfl rfl rfl⟩

/-- C10: on an open stream whose register is exactly `{eof}`, whose error
indicator is clear and whose offset is `S`, a `seek` whose `fseek` succeeds and
lands at offset `p` (error indicator still clear) leaves the register empty when
`p < S` and exactly `{eof}` when `p >= S`. -/
theorem C10_seek_from_eof_register (os : OS H) (s : fstream H) (h h' : H) (dir : Int)
    (whence : Whence) (S p : Nat)
    (hh : s.m_handle = some h) (hb : s.m_statusBits = eof)
    (he : os.ferror h = 0) (hS : os.ftell h = (S : Int)) (hSl : S < 2 ^ 63)
    (hseek : os.fseek h dir (fileWhence whence) = (0, h'))
    (he' : os.ferror h' = 0) (hp : os.ftell h' = (p : Int)) (hpl : p < 2 ^ 63) :
    ∃ s', seek os s dir whence = some s' ∧ s'.m_handle = some h' ∧
      (p < S → s'.m_statusBits = 0) ∧ (S ≤ p → s'.m_statusBits = eof) := by
  have hh1 : (s.log OSCall.ferror).m_handle = some h := by simp [fstream.log, hh]
  have hb1 : (s.log OSCall.ferror).m_statusBits = eof := by simp [fstream.log, hb]
  have heof : is_eof (s.log OSCall.ferror) = true := by
    simp [is_eof, hb1]; decide
  have ht1 := tell_clean os (s.log OSCall.ferror) h S hh1 he (Or.inr hb1) hS hSl
  have hg2 := good_clean os (((s.log OSCall.ferror).log OSCall.ferror).log OSCall.ftell) h
    (by simp [fstream.log, hh]) he (Or.inr (by simp [fstream.log, hb]))
  unfold seek
  simp only [good_clean os s h hh he (Or.inr hb), Bool.not_true, Bool.false_eq_true, if_false,
    heof, if_true, ht1, hg2]
  exact seekRaw_eof os _ h h' S dir whence p (by simp [fstream.log, hh])
    (by simp [fstream.log, hb]) hseek he' hp hpl

/-- Witness of C10: from the end of a three-byte file, `seek( 1, beg )`. -/
theorem C10_seek_from_eof_register_witness :
    (streamAtEof.m_handle = some fileAtEnd ∧ streamAtEof.m_statusBits = eof ∧
      (stdio noFiles).ferror fileAtEnd = 0 ∧ (stdio noFiles).ftell fileAtEnd = ((3 : Nat) : Int) ∧
      (stdio noFiles).fseek fileAtEnd 1 (fileWhence Whence.beg) =
        (0, { fileAtEnd with pos := 1, eofInd := false }) ∧
      (stdio noFiles).ferror { fileAtEnd with pos := 1, eofInd := false } = 0 ∧
      (stdio noFiles).ftell { fileAtEnd with pos := 1, eofInd := false } = ((1 : Nat) : Int)) ∧
    ∃ s', seek (stdio noFiles) streamAtEof 1 Whence.beg = some s' ∧
      s'.m_handle = some { fileAtEnd with pos := 1, eofInd := false } ∧
      ((1 : Nat) < 3 → s'.m_statusBits = 0) ∧ ((3 : Nat) ≤ 1 → s'.m_statusBits = eof) :=
  ⟨⟨rfl, rfl, by decide, by decide, by decide, by decide, by decide⟩,
    C10_seek_from_eof_register (stdio noFiles) streamAtEof fileAtEnd
      { fileAtEnd with pos := 1, eofInd := false } 1 Whence.beg 3 1 rfl rfl (by decide)
      (by decide) (by decide) (by decide) (by decide) (by decide) (by decide)⟩

/-- C11 fails on the code: on a three-byte file, `open`, a short `read` (register
`{eof}`, offset 3), `seek( 10, beg )` (register still `{eof}`, offset 10), then
`seek( 5, beg )` empties the register although the offset it lands on, 5, is
not less than the file's size, 3: the second seek compares with the offset
`tell()` reported, 10, not with the size. -/
theorem C11_seek_clears_eof_beyond_end :
    afterShortRead.map observe = some (eof, some (3, 3)) ∧
    afterSeekPastEnd.map observe = some (eof, some (10, 3)) ∧
    afterSeekBack.map observe = some (0, some (5, 3)) ∧
    afterSeekBack.map (fun s => is_eof s) = some false := by
  decide

/-- C12 as stated fails: `getFileSize( true )` is not `seek`, yet it clears
`eof`.  On a stream with register `{eof}` at offset 3 of a file that now holds
five bytes, it returns 5 with the offset back at 3 and the register empty (the
restoring seek lands below the size). -/
theorem C12_counterexample :
    is_eof streamGrownFile = true ∧
    (getFileSize (stdio noFiles) streamGrownFile true).map (fun r => (r.1, observe r.2)) =
      some (5, (0, some (3, 5))) ∧
    (getFileSize (stdio noFiles) streamGrownFile true).map (fun r => is_eof r.2) =
      some false := by
  decide

/-- C12 (amended): for every stream and any OS behaviour, `good`, `read`,
`write`, `tell`, `flush`, `fsync` and the typed `read`/`write` keep every bit of
the register that was set (`is_eof` is a pure query); `seek` and `getFileSize`
keep every bit but possibly `eof`; so after each of them the `bad` and `fail`
bits that were set are still set.  `good`, `flush`, `tell`, `seek` and
`getFileSize` return on every stream (`flush` without a handle through
`fflush( NULL )`); `read`, `write` and `fsync` return unless the capability is
set while no handle is held, where the source hands the null handle to `fread`,
`fwrite` or `fileno`. -/
theorem C12_bad_fail_sticky (os : OS H) (pf : Platform) (s : fstream H) :
    keepsBits s.m_statusBits (good os s).2.m_statusBits ∧
    (∀ outData sizeBytes r s', read os s outData sizeBytes = some (r, s') →
      keepsBits s.m_statusBits s'.m_statusBits ∧ sticky s.m_statusBits s'.m_statusBits) ∧
    (∀ inData sizeBytes r s', write os s inData sizeBytes = some (r, s') →
      keepsBits s.m_statusBits s'.m_statusBits ∧ sticky s.m_statusBits s'.m_statusBits) ∧
    (∀ v s', tell os s = some (v, s') →
      keepsBits s.m_statusBits s'.m_statusBits ∧ sticky s.m_statusBits s'.m_statusBits) ∧
    (∀ r s', flush os s = some (r, s') →
      keepsBits s.m_statusBits s'.m_statusBits ∧ sticky s.m_statusBits s'.m_statusBits) ∧
    (∀ preferDataSync s', fsync os pf s preferDataSync = some s' →
      keepsBits s.m_statusBits s'.m_statusBits ∧ sticky s.m_statusBits s'.m_statusBits) ∧
    (∀ outValue r s', read_uint8 os s outValue = some (r, s') →
      keepsBits s.m_statusBits s'.m_statusBits ∧ sticky s.m_statusBits s'.m_statusBits) ∧
    (∀ inValue r s', write_uint8 os s inValue = some (r, s') →
      keepsBits s.m_statusBits s'.m_statusBits ∧ sticky s.m_statusBits s'.m_statusBits) ∧
    (∀ r s', read_bool os s = some (r, s') →
      keepsBits s.m_statusBits s'.m_statusBits ∧ sticky s.m_statusBits s'.m_statusBits) ∧
    (∀ inValue r s', write_bool os s inValue = some (r, s') →
      keepsBits s.m_statusBits s'.m_statusBits ∧ sticky s.m_statusBits s'.m_statusBits) ∧
    (∀ dir whence s', seek os s dir whence = some s' →
      keepsBitsButEof s.m_statusBits s'.m_statusBits ∧
        sticky s.m_statusBits s'.m_statusBits) ∧
    (∀ bRestoreOffset v s', getFileSize os s bRestoreOffset = some (v, s') →
      keepsBitsButEof s.m_statusBits s'.m_statusBits ∧
        sticky s.m_statusBits s'.m_statusBits) ∧
    (∃ r s', flush os s = some (r, s')) ∧
    (∃ v s', tell os s = some (v, s')) ∧
    (∀ dir whence, ∃ s', seek os s dir whence = some s') ∧
    (∀ bRestoreOffset, ∃ v s', getFileSize os s bRestoreOffset = some (v, s')) ∧
    (s.m_canRead = false ∨ s.m_handle.isSome = true →
      ∀ outData sizeBytes, ∃ r s', read os s outData sizeBytes = some (r, s')) ∧
    (s.m_canWrite = false ∨ s.m_handle.isSome = true →
      (∀ inData sizeBytes, ∃ r s', write os s inData sizeBytes = some (r, s')) ∧
      (∀ preferDataSync, ∃ s', fsync os pf s preferDataSync = some s')) := by
  refine ⟨good_keeps os s, ?_, ?_, ?_, ?_, ?_, ?_, ?_, ?_, ?_, ?_, ?_, flush_returns os s, ?_,
    ?_, fun b => getFileSize_returns os s b, fun hs outData n => read_returns os s outData n hs,
    fun hs => ⟨fun inData n => write_returns os s inData n hs,
      fun b => fsync_returns os pf s b hs⟩⟩
  · intro outData sizeBytes r s' h
    exact ⟨read_keeps os s _ _ _ _ h, (read_keeps os s _ _ _ _ h).butEof.sticky⟩
  · intro inData sizeBytes r s' h
    exact ⟨write_keeps os s _ _ _ _ h, (write_keeps os s _ _ _ _ h).butEof.sticky⟩
  · intro v s' h
    exact ⟨tell_keeps os s _ _ h, (tell_keeps os s _ _ h).butEof.sticky⟩
  · intro r s' h
    exact ⟨flush_keeps os s _ _ h, (flush_keeps os s _ _ h).butEof.sticky⟩
  · intro b s' h
    exact ⟨fsync_keeps os pf s _ _ h, (fsync_keeps os pf s _ _ h).butEof.sticky⟩
  · intro v r s' h
    exact ⟨read_uint8_keeps os s _ _ _ h, (read_uint8_keeps os s _ _ _ h).butEof.sticky⟩
  · intro v r s' h
    exact ⟨write_keeps os s _ _ _ _ h, (write_keeps os s _ _ _ _ h).butEof.sticky⟩
  · intro r s' h
    exact ⟨read_bool_keeps os s _ _ h, (read_bool_keeps os s _ _ h).butEof.sticky⟩
  · intro b r s' h
    exact ⟨write_keeps os s _ _ _ _ h, (write_keeps os s _ _ _ _ h).butEof.sticky⟩
  · intro dir whence s' h
    exact ⟨seek_keeps os s _ _ _ h, (seek_keeps os s _ _ _ h).sticky⟩
  · intro b v s' h
    exact ⟨getFileSize_keeps os s _ _ _ h, (getFileSize_keeps os s _ _ _ h).sticky⟩
  · obtain ⟨v, s', h, -⟩ := tell_extends os s
    exact ⟨v, s', h⟩
  · intro dir whence
    obtain ⟨s', h, -⟩ := seek_extends os s dir whence
    exact ⟨s', h⟩

/-- Witness of C12 (amended): a seek on an open stream whose `fail` bit is set
leaves `fail` set. -/
theorem C12_bad_fail_sticky_witness :
    (seek (stdio noFiles) streamFailed 0 Whence.beg = some (streamFailed.orBits failbit) ∧
      hasBit streamFailed.m_statusBits failbit = true) ∧
    hasBit (streamFailed.orBits failbit).m_statusBits failbit = true :=
  ⟨⟨rfl, by decide⟩,
    ((C12_bad_fail_sticky (stdio noFiles) Platform.posix streamFailed).2.2.2.2.2.2.2.2.2.2.1
      0 Whence.beg (streamFailed.orBits failbit) rfl).2.2 (by decide)⟩

/-- C13: for every stream, `close()` leaves no handle, an empty register and
both capabilities false; it issues one `fclose` when a handle was held and none
otherwise, so a second `close()` changes nothing and releases nothing;
afterwards `is_open()`, `good()` and `is_eof()` are false. -/
theorem C13_close_resets_and_is_idempotent (os : OS H) (s : fstream H) :
    (close s).m_handle = none ∧ (close s).m_statusBits = 0 ∧
    (close s).m_canRead = false ∧ (close s).m_canWrite = false ∧
    (close s).calls = s.calls ++ (if s.m_handle.isSome then [OSCall.fclose] else []) ∧
    close (close s) = close s ∧
    is_open (close s) = false ∧ (good os (close s)).1 = false ∧ is_eof (close s) = false := by
  obtain ⟨hd, bits, cr, cw, calls⟩ := s
  cases hd <;> simp [close, fstream.log, is_open, good, is_eof]

/-- C14: over the reference stdio, on an open healthy stream (register empty
or exactly `{eof}`) whose offset and file size fit a `long`,
`getFileSize( true )` returns the file's size and leaves the offset where it
was, and `getFileSize( false )` returns the same size and leaves the offset at
the end of the file. -/
theorem C14_getFileSize_size_and_offset (fs : String → Option (List Nat)) (s : fstream File)
    (f : File) (hh : s.m_handle = some f) (he : f.errInd = false)
    (hb : s.m_statusBits = 0 ∨ s.m_statusBits = eof) (hp : f.pos < 2 ^ 63)
    (hsize : f.data.length < 2 ^ 63) :
    (∃ s', getFileSize (stdio fs) s true = some (f.data.length, s') ∧
      s'.m_handle = some { f with pos := f.pos, eofInd := false }) ∧
    (∃ s', getFileSize (stdio fs) s false = some (f.data.length, s') ∧
      s'.m_handle = some { f with pos := f.data.length, eofInd := false }) := by
  have hg := stdio_good fs s f hh he hb
  have hh0 : (s.log OSCall.ferror).m_handle = some f := by simp [fstream.log, hh]
  have hb0 : (s.log OSCall.ferror).m_statusBits = 0 ∨ (s.log OSCall.ferror).m_statusBits = eof := by
    simpa [fstream.log] using hb
  have hend : (seekTarget f 0 Whence.end_).toNat = f.data.length := by simp [seekTarget]
  constructor
  · -- bRestoreOffset = true
    have ht1 := stdio_tell fs (s.log OSCall.ferror) f hh0 he hb0 hp
    have hh1 : (((s.log OSCall.ferror).log OSCall.ferror).log OSCall.ftell).m_handle = some f := by
      simp [fstream.log, hh]
    have hb1 : (((s.log OSCall.ferror).log OSCall.ferror).log OSCall.ftell).m_statusBits = 0 ∨
        (((s.log OSCall.ferror).log OSCall.ferror).log OSCall.ftell).m_statusBits = eof := by
      simpa [fstream.log] using hb
    obtain ⟨s2, hs2, hh2, hb2⟩ := stdio_seek_healthy fs _ f 0 Whence.end_ hh1 he hb1 hp
      (by simp [seekTarget]) (by simp only [seekTarget]; omega)
    rw [hend] at hh2
    have ht3 := stdio_tell fs s2 _ hh2 he hb2 hsize
    have hh3 : ((s2.log OSCall.ferror).log OSCall.ftell).m_handle =
        some { f with pos := f.data.length, eofInd := false } := by simp [fstream.log, hh2]
    have hb3 : ((s2.log OSCall.ferror).log OSCall.ftell).m_statusBits = 0 ∨
        ((s2.log OSCall.ferror).log OSCall.ftell).m_statusBits = eof := by
      simpa [fstream.log] using hb2
    obtain ⟨s4, hs4, hh4, -⟩ := stdio_seek_healthy fs _ _ (f.pos : Int) Whence.beg hh3 he hb3
      hsize (by simp [seekTarget]) (by simp only [seekTarget]; omega)
    have hback : (seekTarget { f with pos := f.data.length, eofInd := false } (f.pos : Int)
        Whence.beg).toNat = f.pos := by simp [seekTarget]
    rw [hback] at hh4
    refine ⟨s4, ?_, hh4⟩
    unfold getFileSize
    simp only [hg, Bool.not_true, Bool.false_eq_true, if_false, if_true, ht1, hs2, ht3,
      toPtrdiff_small f.pos hp, hs4]
  · -- bRestoreOffset = false
    obtain ⟨s2, hs2, hh2, hb2⟩ := stdio_seek_healthy fs _ f 0 Whence.end_ hh0 he hb0 hp
      (by simp [seekTarget]) (by simp only [seekTarget]; omega)
    rw [hend] at hh2
    have ht3 := stdio_tell fs s2 _ hh2 he hb2 hsize
    refine ⟨(s2.log OSCall.ferror).log OSCall.ftell, ?_, by simp [fstream.log, hh2]⟩
    unfold getFileSize
    simp only [hg, Bool.not_true, Bool.false_eq_true, if_false, hs2, ht3]

/-- Witness of C14: the stream at the end of a three-byte file. -/
theorem C14_getFileSize_size_and_offset_witness :
    (streamAtEof.m_handle = some fileAtEnd ∧ fileAtEnd.errInd = false ∧
      (streamAtEof.m_statusBits = 0 ∨ streamAtEof.m_statusBits = eof) ∧
      fileAtEnd.pos < 2 ^ 63 ∧ fileAtEnd.data.length < 2 ^ 63) ∧
    ((∃ s', getFileSize (stdio noFiles) streamAtEof true = some (fileAtEnd.data.length, s') ∧
      s'.m_handle = some { fileAtEnd with pos := fileAtEnd.pos, eofInd := false }) ∧
    (∃ s', getFileSize (stdio noFiles) streamAtEof false = some (fileAtEnd.data.length, s') ∧
      s'.m_handle = some { fileAtEnd with pos := fileAtEnd.data.length, eofInd := false })) :=
  ⟨⟨rfl, rfl, Or.inr rfl, by decide, by decide⟩,
    C14_getFileSize_size_and_offset noFiles streamAtEof fileAtEnd rfl rfl (Or.inr rfl)
      (by decide) (by decide)⟩

/-- C15: `write<bool>( b )` is the one-byte write of 1 (true) or 0 (false): on
a writable open stream the single OS call is `fwrite` of that byte with size 1;
`read<bool>` asks the OS for one byte and yields `byte != 0`; and over the
reference stdio a boolean written at offset 0 and read back after
`seek( 0, beg )` comes back unchanged, one byte each way. -/
theorem C15_bool_is_one_byte (os : OS H) (s : fstream H) (b : Bool) :
    write_bool os s b = write os s [if b then 1 else 0] 1 ∧
    (∀ h, s.m_canWrite = true → s.m_handle = some h →
      ∃ s', write_bool os s b = some ((os.fwrite h [if b then 1 else 0] 1).1, s') ∧
        s'.calls = s.calls ++ [OSCall.fwrite [if b then 1 else 0] 1]) ∧
    (∀ h byte h', s.m_canRead = true → s.m_handle = some h → os.fread h 1 = ([byte], h') →
      ∃ s', read_bool os s = some ((1, byte != 0), s') ∧
        s'.calls = s.calls ++ [OSCall.fread 1]) ∧
    (∀ (fs : String → Option (List Nat)) (t : fstream File) (f : File),
      t.m_handle = some f → t.m_canRead = true → t.m_canWrite = true → t.m_statusBits = 0 →
      f.errInd = false → f.writable = true → f.pos = 0 →
      ∃ t1 t2 t3, write_bool (stdio fs) t b = some (1, t1) ∧
        seek (stdio fs) t1 0 Whence.beg = some t2 ∧
        read_bool (stdio fs) t2 = some ((1, b), t3)) := by
  refine ⟨rfl, ?_, ?_, ?_⟩
  · intro h hw hh
    unfold write_bool write_uint8 write
    simp only [hw, if_true, hh]
    split_ifs <;> exact ⟨_, rfl, by simp [fstream.orBits, fstream.log]⟩
  · intro h byte h' hr hh hfr
    unfold read_bool read_uint8 read
    simp only [hr, if_true, hh, hfr]
    refine ⟨{ s.log (OSCall.fread 1) with m_handle := some h' }, ?_, ?_⟩
    · simp
    · simp [fstream.log]
  · intro fs t f hh hr hw hb he hfw hp
    obtain ⟨t1, t2, t3, h1, -, h2, -, h3, -⟩ :=
      stdio_write_seek_read fs t f [if b then 1 else 0] [0] hh hr hw hb he hfw hp rfl
    refine ⟨t1, t2, t3, h1, h2, ?_⟩
    have h3' : read (stdio fs) t2 [0] 1 = some ((1, [if b then 1 else 0]), t3) := h3
    unfold read_bool read_uint8
    simp only [h3']
    cases b <;> simp

/-- Witness of C15: `true` written to and read back from a five-byte file. -/
theorem C15_bool_is_one_byte_witness :
    (streamReadWrite.m_handle = some fileForUpdate ∧ streamReadWrite.m_canRead = true ∧
      streamReadWrite.m_canWrite = true ∧ streamReadWrite.m_statusBits = 0 ∧
      fileForUpdate.errInd = false ∧ fileForUpdate.writable = true ∧ fileForUpdate.pos = 0) ∧
    ∃ t1 t2 t3, write_bool (stdio noFiles) streamReadWrite true = some (1, t1) ∧
      seek (stdio noFiles) t1 0 Whence.beg = some t2 ∧
      read_bool (stdio noFiles) t2 = some ((1, true), t3) :=
  ⟨⟨rfl, rfl, rfl, rfl, rfl, rfl, rfl⟩,
    (C15_bool_is_one_byte (stdio noFiles) streamReadWrite true).2.2.2 noFiles streamReadWrite
      fileForUpdate rfl rfl rfl rfl rfl rfl rfl⟩

/-- C16: `push_back` on a full vector changes nothing; below capacity it stores
the value at index `size`, keeps the elements before it and increments the size
(the stored sequence gets the value appended); `pop_back` on an empty vector
changes nothing; and after any sequence of `push_back`, `pop_back` and `erase`
on a new vector (no assertion of `erase` failing) the size is at most `N`. -/
theorem C16_push_pop_clamped {T : Type} {N : Nat} (v : static_vector T N) (value : T) :
    (v.m_size = N → v.push_back value = v) ∧
    (v.m_size < N →
      (v.push_back value).m_size = v.m_size + 1 ∧
      (v.push_back value).m_data v.m_size = value ∧
      (∀ i, i < v.m_size → (v.push_back value).m_data i = v.m_data i) ∧
      (v.push_back value).toList = v.toList ++ [value]) ∧
    (v.m_size = 0 → v.pop_back = v) ∧
    (∀ (d : Nat → T) (ops : List (VecOp T)) (v1 : static_vector T N),
      (static_vector.new d : static_vector T N).run ops = some v1 → v1.size ≤ N) := by
  refine ⟨?_, ?_, ?_, ?_⟩
  · intro h
    unfold static_vector.push_back
    rw [if_neg (by omega)]
  · intro h
    refine ⟨?_, ?_, ?_, toList_push_back v value h⟩
    · unfold static_vector.push_back; rw [if_pos h]
    · unfold static_vector.push_back; rw [if_pos h]; exact Function.update_same _ _ _
    · intro i hi
      unfold static_vector.push_back
      rw [if_pos h]
      exact Function.update_noteq (by omega) _ _
  · intro h
    unfold static_vector.pop_back
    rw [if_neg (by omega)]
  · intro d ops v1 hr
    exact run_size_le ops (static_vector.new d) v1 (Nat.zero_le N) hr

/-- Witness of C16: the full vector 7, 8, 9 of capacity 3, and four pushes
followed by an `erase` and a `pop_back` on a new vector of capacity 3. -/
theorem C16_push_pop_clamped_witness :
    (vec789.m_size = 3 ∧
      ((static_vector.new (fun _ => 0) : static_vector Nat 3).run
        [VecOp.push 1, VecOp.push 2, VecOp.push 3, VecOp.push 4, VecOp.erase 0,
          VecOp.pop]).map static_vector.toList = some [2]) ∧
    vec789.push_back 5 = vec789 :=
  ⟨⟨rfl, by decide⟩, (C16_push_pop_clamped vec789 5).1 rfl⟩

/-- C17: `erase` at a position `i < size` returns `i` and leaves the sequence
without its `i`-th element, the others in order, with the size one less;
`erase` at `end()` (also on an empty vector) returns `end()` and changes
nothing. -/
theorem C17_erase_shifts_tail {T : Type} {N : Nat} (v : static_vector T N) (i : Nat) :
    (i < v.m_size →
      ∃ v1, v.erase i = some (i, v1) ∧ v1.m_size = v.m_size - 1 ∧
        v1.toList = v.toList.eraseIdx i) ∧
    v.erase v.end_ = some (v.end_, v) := by
  constructor
  · intro hi
    exact ⟨_, erase_valid v i hi, rfl, toList_erase v i hi⟩
  · unfold static_vector.erase
    rw [if_pos rfl]

/-- Witness of C17: erasing position 1 of 7, 8, 9 leaves 7, 9. -/
theorem C17_erase_shifts_tail_witness :
    (1 < vec789.m_size ∧ vec789.toList = [7, 8, 9]) ∧
    ∃ v1, vec789.erase 1 = some (1, v1) ∧ v1.m_size = vec789.m_size - 1 ∧
      v1.toList = [7, 9] :=
  ⟨⟨by decide, by decide⟩, (C17_erase_shifts_tail vec789 1).1 (by decide)⟩

/-- C18: on a stream with `m_canRead` and a handle, `read` returns the number
of bytes `fread` transferred (and these bytes at the start of the buffer); when
that number is `n` the register is unchanged; otherwise `bad` is or-ed in
exactly when `ferror` is set and `eof` exactly when `feof` is set, each test on
its own; `fail` is never added. -/
theorem C18_read_count_and_register (os : OS H) (s : fstream H) (h : H) (outData : List Nat)
    (n : Nat) (hr : s.m_canRead = true) (hh : s.m_handle = some h) :
    ∃ s', read os s outData n =
        some (((os.fread h n).1.length,
               (os.fread h n).1 ++ outData.drop (os.fread h n).1.length), s') ∧
      ((os.fread h n).1.length = n → s'.m_statusBits = s.m_statusBits) ∧
      ((os.fread h n).1.length ≠ n →
        s'.m_statusBits =
          (s.m_statusBits ||| (if os.ferror (os.fread h n).2 ≠ 0 then badbit else 0)) |||
            (if os.feof (os.fread h n).2 ≠ 0 then eof else 0)) ∧
      ((os.fread h n).1.length ≠ n →
        hasBit s'.m_statusBits badbit =
          (hasBit s.m_statusBits badbit || decide (os.ferror (os.fread h n).2 ≠ 0)) ∧
        hasBit s'.m_statusBits eof =
          (hasBit s.m_statusBits eof || decide (os.feof (os.fread h n).2 ≠ 0))) ∧
      hasBit s'.m_statusBits failbit = hasBit s.m_statusBits failbit := by
  have hbits : ∀ s' : fstream H, (s'.m_statusBits =
          (s.m_statusBits ||| (if os.ferror (os.fread h n).2 ≠ 0 then badbit else 0)) |||
            (if os.feof (os.fread h n).2 ≠ 0 then eof else 0)) →
        (hasBit s'.m_statusBits badbit =
          (hasBit s.m_statusBits badbit || decide (os.ferror (os.fread h n).2 ≠ 0)) ∧
        hasBit s'.m_statusBits eof =
          (hasBit s.m_statusBits eof || decide (os.feof (os.fread h n).2 ≠ 0))) ∧
        hasBit s'.m_statusBits failbit = hasBit s.m_statusBits failbit := by
    intro s' hs'
    have e0 : hasBit 0 1 = false := by decide
    have e1 : hasBit 0 2 = false := by decide
    have e2 : hasBit 0 4 = false := by decide
    have b0 : hasBit badbit 1 = true := by decide
    have b1 : hasBit badbit 2 = false := by decide
    have b2 : hasBit badbit 4 = false := by decide
    have f0 : hasBit eof 1 = false := by decide
    have f1 : hasBit eof 2 = false := by decide
    have f2 : hasBit eof 4 = true := by decide
    rw [hs']
    refine ⟨⟨?_, ?_⟩, ?_⟩
    · show hasBit _ (2 ^ 0) = (hasBit _ (2 ^ 0) || _)
      rw [hasBit_or, hasBit_or]
      split_ifs <;> simp [*]
    · show hasBit _ (2 ^ 2) = (hasBit _ (2 ^ 2) || _)
      rw [hasBit_or, hasBit_or]
      split_ifs <;> simp [*]
    · show hasBit _ (2 ^ 1) = hasBit _ (2 ^ 1)
      rw [hasBit_or, hasBit_or]
      split_ifs <;> simp [*]
  unfold read
  simp only [hr, if_true, hh]
  by_cases hn : (os.fread h n).1.length = n
  · rw [if_neg (by simpa using hn)]
    exact ⟨_, rfl, fun _ => rfl, fun hc => absurd hn hc, fun hc => absurd hn hc, rfl⟩
  · rw [if_pos hn]
    have hreg : ∀ (a b : Prop) [Decidable a] [Decidable b] (t : fstream H),
        (if b then ((if a then (t.log OSCall.ferror).orBits badbit
                      else t.log OSCall.ferror).log OSCall.feof).orBits eof
          else (if a then (t.log OSCall.ferror).orBits badbit
                      else t.log OSCall.ferror).log OSCall.feof).m_statusBits =
          (t.m_statusBits ||| (if a then badbit else 0)) ||| (if b then eof else 0) := by
      intro a b _ _ t
      split_ifs <;> simp [fstream.log, fstream.orBits]
    have hreg' := hreg (os.ferror (os.fread h n).2 ≠ 0) (os.feof (os.fread h n).2 ≠ 0)
      { s.log (OSCall.fread n) with m_handle := some (os.fread h n).2 }
    exact ⟨_, rfl, fun hc => absurd hc hn, fun _ => hreg', fun _ => (hbits _ hreg').1,
      (hbits _ hreg').2⟩

/-- Witness of C18: a four-byte read at the end of a three-byte file transfers
nothing and adds `eof` only. -/
theorem C18_read_count_and_register_witness :
    (streamAtEof.m_canRead = true ∧ streamAtEof.m_handle = some fileAtEnd) ∧
    ∃ s', read (stdio noFiles) streamAtEof [0, 0, 0, 0] 4 =
        some ((((stdio noFiles).fread fileAtEnd 4).1.length,
               ((stdio noFiles).fread fileAtEnd 4).1 ++
                 List.drop ((stdio noFiles).fread fileAtEnd 4).1.length [0, 0, 0, 0]), s') ∧
      hasBit s'.m_statusBits failbit = hasBit streamAtEof.m_statusBits failbit :=
  ⟨⟨rfl, rfl⟩,
    (C18_read_count_and_register (stdio noFiles) streamAtEof fileAtEnd [0, 0, 0, 0] 4 rfl
      rfl).elim fun s' hs' => ⟨s', hs'.1, hs'.2.2.2.2⟩⟩

/-- C19: on a stream with `m_canWrite` and a handle, `write` returns the count
`fwrite` reports; the register is unchanged when that count is `n`; otherwise
`bad`, and nothing else, is or-ed in: `eof` and `fail` are as before. -/
theorem C19_write_count_and_register (os : OS H) (s : fstream H) (h : H) (inData : List Nat)
    (n : Nat) (hw : s.m_canWrite = true) (hh : s.m_handle = some h) :
    ∃ s', write os s inData n = some ((os.fwrite h inData n).1, s') ∧
      ((os.fwrite h inData n).1 = n → s'.m_statusBits = s.m_statusBits) ∧
      ((os.fwrite h inData n).1 ≠ n →
        s'.m_statusBits = s.m_statusBits ||| badbit ∧ hasBit s'.m_statusBits badbit = true) ∧
      hasBit s'.m_statusBits eof = hasBit s.m_statusBits eof ∧
      hasBit s'.m_statusBits failbit = hasBit s.m_statusBits failbit := by
  unfold write
  simp only [hw, if_true, hh]
  by_cases hn : (os.fwrite h inData n).1 = n
  · rw [if_neg (by simpa using hn)]
    exact ⟨_, rfl, fun _ => rfl, fun hc => absurd hn hc, rfl, rfl⟩
  · rw [if_pos hn]
    exact ⟨_, rfl, fun hc => absurd hc hn,
      fun _ => ⟨rfl, hasBit_or_self _ _ (by decide)⟩,
      hasBit_or_disjoint _ _ _ (by decide), hasBit_or_disjoint _ _ _ (by decide)⟩

/-- Witness of C19: one byte written to a five-byte file opened for update. -/
theorem C19_write_count_and_register_witness :
    (streamReadWrite.m_canWrite = true ∧ streamReadWrite.m_handle = some fileForUpdate) ∧
    ∃ s', write (stdio noFiles) streamReadWrite [1] 1 =
        some (((stdio noFiles).fwrite fileForUpdate [1] 1).1, s') ∧
      (((stdio noFiles).fwrite fileForUpdate [1] 1).1 = 1 →
        s'.m_statusBits = streamReadWrite.m_statusBits) :=
  ⟨⟨rfl, rfl⟩,
    (C19_write_count_and_register (stdio noFiles) streamReadWrite fileForUpdate [1] 1 rfl
      rfl).elim fun s' hs' => ⟨s', hs'.1, hs'.2.1⟩⟩

/-- C20: when `good()` holds a handle is held and `tell()` returns the offset
`ftell` reports, converted to `size_t`; the register is unchanged unless `ftell`
reports -1, in which case `bad` is or-ed in and the returned value is the
sentinel, the maximum `size_t`; when `good()` does not hold `tell()` returns
the sentinel too. -/
theorem C20_tell_offset_or_sentinel (os : OS H) (s : fstream H) :
    ((good os s).1 = true →
      ∃ h s', s.m_handle = some h ∧ tell os s = some (toSizeT (os.ftell h), s') ∧
        (os.ftell h ≠ -1 → s'.m_statusBits = s.m_statusBits) ∧
        (os.ftell h = -1 →
          s'.m_statusBits = s.m_statusBits ||| badbit ∧
          hasBit s'.m_statusBits badbit = true ∧
          toSizeT (os.ftell h) = SIZE_MAX)) ∧
    ((good os s).1 = false → ∃ s', tell os s = some (SIZE_MAX, s')) ∧
    SIZE_MAX = 2 ^ 64 - 1 := by
  refine ⟨?_, ?_, rfl⟩
  · intro hg
    obtain ⟨h, hh⟩ := good_true_handle os s hg
    have hh2 : (good os s).2.m_handle = some h := by rw [good_handle, hh]
    have hb := good_true_register os s hg
    refine ⟨h, (if os.ftell h = -1 then ((good os s).2.log OSCall.ftell).orBits badbit
      else (good os s).2.log OSCall.ftell), hh, ?_, ?_, ?_⟩
    · unfold tell
      simp only [hg, Bool.not_true, Bool.false_eq_true, if_false, hh2]
    · intro hne
      rw [if_neg hne]
      simpa [fstream.log] using hb
    · intro he
      rw [if_pos he]
      refine ⟨?_, ?_, ?_⟩
      · simp [fstream.orBits, fstream.log, hb]
      · simp only [fstream.orBits, fstream.log]
        exact hasBit_or_self _ _ (by decide)
      · rw [he]; exact toSizeT_neg_one
  · intro hg
    exact ⟨(good os s).2.orBits failbit, by simp [tell, hg]⟩

/-- Witness of C20: `tell()` at the end of a three-byte file returns 3. -/
theorem C20_tell_offset_or_sentinel_witness :
    (good (stdio noFiles) streamAtEof).1 = true ∧
    ∃ h s', streamAtEof.m_handle = some h ∧
      tell (stdio noFiles) streamAtEof = some (toSizeT ((stdio noFiles).ftell h), s') ∧
      toSizeT ((stdio noFiles).ftell h) = 3 :=
  ⟨by decide,
    ((C20_tell_offset_or_sentinel (stdio noFiles) streamAtEof).1 (by decide)).elim
      fun h hs => hs.elim fun s' hs' =>
        ⟨h, s', hs'.1, hs'.2.1, by
          have hf : fileAtEnd = h := Option.some.inj hs'.1
          rw [← hf]; decide⟩⟩

end Claims

end sds
